import Mathlib

/-!
Verification development for the ULP log-processing library.

The Python sources under `src/ulp/` are shallowly embedded below:
pure functions become Lean functions, generators become functions on
lists, Python `dict`s with a fixed key set become structures with
`Option` fields, insertion-ordered `dict`s with dynamic keys become
association lists, Python `float` values become `ℚ`, `datetime`
instants become `ℕ` (ticks since `datetime.min`, which is the minimum
of the type, hence `0`), and behaviour of the Python standard library
(regular-expression engines, `json.loads`, `strptime`/`dateutil`,
`str()` rendering) is abstracted as explicit function parameters,
while all logic written in the repository itself is embedded
concretely.
-/

namespace ULP

open scoped List

/-! ## Log levels (`core/models.py` and `domain/entities.py`)

Both modules define an identical `LogLevel` enum; the two copies of
`from_string` differ in their alias tables, so both tables are embedded.
-/

/-- The `LogLevel` enum common to `core/models.py` and `domain/entities.py`. -/
inductive LogLevel where
  | TRACE
  | DEBUG
  | INFO
  | NOTICE
  | WARNING
  | ERROR
  | CRITICAL
  | ALERT
  | EMERGENCY
  | UNKNOWN
deriving DecidableEq, Repr

/-- Numeric enum values: ordered by severity, `UNKNOWN` least. -/
def LogLevel.value : LogLevel → Int
  | .TRACE => 0
  | .DEBUG => 10
  | .INFO => 20
  | .NOTICE => 25
  | .WARNING => 30
  | .ERROR => 40
  | .CRITICAL => 50
  | .ALERT => 60
  | .EMERGENCY => 70
  | .UNKNOWN => -1

/-- The alias table of `LogLevel.from_string` in `core/models.py`
(lines 56-91).  Note that it has no "panic" and no "information" entry. -/
def levelTableModels : List (String × LogLevel) :=
  [("trace", .TRACE), ("debug", .DEBUG), ("info", .INFO), ("notice", .NOTICE),
   ("warn", .WARNING), ("warning", .WARNING), ("error", .ERROR), ("err", .ERROR),
   ("critical", .CRITICAL), ("crit", .CRITICAL), ("fatal", .CRITICAL),
   ("alert", .ALERT), ("emergency", .EMERGENCY), ("emerg", .EMERGENCY),
   ("t", .TRACE), ("d", .DEBUG), ("i", .INFO), ("n", .NOTICE), ("w", .WARNING),
   ("e", .ERROR), ("c", .CRITICAL), ("f", .CRITICAL), ("a", .ALERT),
   ("0", .EMERGENCY), ("1", .ALERT), ("2", .CRITICAL), ("3", .ERROR),
   ("4", .WARNING), ("5", .NOTICE), ("6", .INFO), ("7", .DEBUG)]

/-- The alias table of `LogLevel.from_string` in `domain/entities.py`
(lines 58-95); it additionally contains "information" and "panic". -/
def levelTableEntities : List (String × LogLevel) :=
  [("trace", .TRACE), ("debug", .DEBUG), ("info", .INFO), ("information", .INFO),
   ("notice", .NOTICE),
   ("warn", .WARNING), ("warning", .WARNING), ("error", .ERROR), ("err", .ERROR),
   ("critical", .CRITICAL), ("crit", .CRITICAL), ("fatal", .CRITICAL),
   ("alert", .ALERT), ("emergency", .EMERGENCY), ("emerg", .EMERGENCY),
   ("panic", .EMERGENCY),
   ("t", .TRACE), ("d", .DEBUG), ("i", .INFO), ("n", .NOTICE), ("w", .WARNING),
   ("e", .ERROR), ("c", .CRITICAL), ("f", .CRITICAL), ("a", .ALERT),
   ("0", .EMERGENCY), ("1", .ALERT), ("2", .CRITICAL), ("3", .ERROR),
   ("4", .WARNING), ("5", .NOTICE), ("6", .INFO), ("7", .DEBUG)]

/-- Python `str.lower()` (modelled for ASCII input, per character). -/
def pyLower (s : String) : String := String.mk (s.data.map Char.toLower)

/-- Python whitespace characters stripped by `str.strip()` (ASCII part). -/
def isPyWhitespace (c : Char) : Bool :=
  c == ' ' || c == '\t' || c == '\n' || c == '\r' || c == '\x0b' || c == '\x0c'

/-- Python `str.strip()`: drop leading and trailing whitespace. -/
def pyStrip (s : String) : String :=
  String.mk (((s.data.dropWhile isPyWhitespace).reverse.dropWhile isPyWhitespace).reverse)

/-- Python `level.lower().strip()`. -/
def pyNormalizeLevel (s : String) : String := pyStrip (pyLower s)

/-- `LogLevel.from_string` of `core/models.py` (line 92):
`mapping.get(level.lower().strip(), cls.UNKNOWN)`. -/
def LogLevel.from_string (level : String) : LogLevel :=
  (levelTableModels.lookup (pyNormalizeLevel level)).getD .UNKNOWN

/-- `LogLevel.from_string` of `domain/entities.py` (line 96). -/
def LogLevel.from_string_entities (level : String) : LogLevel :=
  (levelTableEntities.lookup (pyNormalizeLevel level)).getD .UNKNOWN

/-! ## The normalized record model (`core/models.py`)

Sub-record dataclasses whose fields all default to `None` are embedded
as structures of `Option` fields.  Their `to_dict` methods drop `None`
entries; a Python dict over a fixed optional key set is the same data
as the structure itself, so dict and dataclass share one Lean type and
each `to_dict` is written out field by field, mirroring the
comprehension `{k: v for k, v in self.__dict__.items() if v is not None}`
composed with the keyword-argument constructor (missing key ↦ `None`).

`LogEntry` is parameterized by the value type `α` of `structured_data`
and `extra` (Python `Any`); `uuid4` identifiers are `ℕ`, `datetime`
instants are `ℕ`, floats are `ℚ`. -/

/-- `LogSource` (`core/models.py` lines 116-128).  The Python field
`namespace` is a Lean keyword and is embedded as `nspace`. -/
structure LogSource where
  file_path : Option String := none
  line_number : Option Nat := none
  hostname : Option String := none
  service : Option String := none
  container_id : Option String := none
  pod_name : Option String := none
  nspace : Option String := none
deriving DecidableEq, Repr

/-- `LogSource.to_dict` followed by `LogSource(**d)`: dropping `None`
values and rebuilding with defaults is the identity on every field. -/
def LogSource.to_dict (s : LogSource) : LogSource :=
  { file_path := s.file_path, line_number := s.line_number,
    hostname := s.hostname, service := s.service,
    container_id := s.container_id, pod_name := s.pod_name,
    nspace := s.nspace }

/-- `NetworkInfo` (`core/models.py` lines 132-144). -/
structure NetworkInfo where
  source_ip : Option String := none
  destination_ip : Option String := none
  source_port : Option Int := none
  destination_port : Option Int := none
  protocol : Option String := none
  user_agent : Option String := none
  referer : Option String := none
deriving DecidableEq, Repr

/-- `NetworkInfo.to_dict` composed with rebuilding (identity per field). -/
def NetworkInfo.to_dict (s : NetworkInfo) : NetworkInfo :=
  { source_ip := s.source_ip, destination_ip := s.destination_ip,
    source_port := s.source_port, destination_port := s.destination_port,
    protocol := s.protocol, user_agent := s.user_agent, referer := s.referer }

/-- `HTTPInfo` (`core/models.py` lines 148-160). -/
structure HTTPInfo where
  method : Option String := none
  path : Option String := none
  query_string : Option String := none
  status_code : Option Int := none
  response_size : Option Int := none
  response_time_ms : Option ℚ := none
  http_version : Option String := none
deriving DecidableEq, Repr

/-- `HTTPInfo.to_dict` composed with rebuilding (identity per field). -/
def HTTPInfo.to_dict (s : HTTPInfo) : HTTPInfo :=
  { method := s.method, path := s.path, query_string := s.query_string,
    status_code := s.status_code, response_size := s.response_size,
    response_time_ms := s.response_time_ms, http_version := s.http_version }

/-- `CorrelationIds` (`core/models.py` lines 164-176). -/
structure CorrelationIds where
  request_id : Option String := none
  trace_id : Option String := none
  span_id : Option String := none
  correlation_id : Option String := none
  session_id : Option String := none
  user_id : Option String := none
  transaction_id : Option String := none
deriving DecidableEq, Repr

/-- `CorrelationIds.to_dict` composed with rebuilding (identity per field). -/
def CorrelationIds.to_dict (s : CorrelationIds) : CorrelationIds :=
  { request_id := s.request_id, trace_id := s.trace_id, span_id := s.span_id,
    correlation_id := s.correlation_id, session_id := s.session_id,
    user_id := s.user_id, transaction_id := s.transaction_id }

/-- Whether `CorrelationIds.to_dict` produces an empty dict (all fields
`None`); `LogEntry.to_dict` tests this with `if correlation_dict:`. -/
def CorrelationIds.isEmptyDict (s : CorrelationIds) : Bool :=
  s.request_id.isNone && s.trace_id.isNone && s.span_id.isNone &&
  s.correlation_id.isNone && s.session_id.isNone && s.user_id.isNone &&
  s.transaction_id.isNone

/-- `LogEntry` (`core/models.py` lines 180-221). -/
structure LogEntry (α : Type) where
  id : Nat := 0
  raw : String := ""
  timestamp : Option Nat := none
  timestamp_precision : String := "unknown"
  level : LogLevel := .UNKNOWN
  format_detected : String := "unknown"
  message : String := ""
  structured_data : List (String × α) := []
  source : LogSource := {}
  network : Option NetworkInfo := none
  http : Option HTTPInfo := none
  correlation : CorrelationIds := {}
  parser_name : String := ""
  parser_confidence : ℚ := 0
  parse_errors : List String := []
  extra : List (String × α) := []
deriving DecidableEq, Repr

/-- `LogEntry.is_error` (line 223): `self.level >= LogLevel.ERROR` under
the severity-value order. -/
def LogEntry.is_error {α : Type} (e : LogEntry α) : Bool :=
  decide (LogLevel.value .ERROR ≤ LogLevel.value e.level)

/-- The dictionary produced by `LogEntry.to_dict` (lines 233-260), with
each JSON-able scalar kept at its Python type: `id` rendered to a
string by `str(uuid)`, `timestamp` rendered by `isoformat()` or `None`,
`level` rendered by `.name`, sub-dicts as above, and the optional
`network`/`http`/`correlation` keys present only in the stated cases. -/
structure LogEntryDict (α : Type) where
  id : String
  raw : String
  timestamp : Option String
  timestamp_precision : String
  level : String
  format_detected : String
  message : String
  structured_data : List (String × α)
  source : LogSource
  network : Option NetworkInfo := none
  http : Option HTTPInfo := none
  correlation : Option CorrelationIds := none
  parser_name : String
  parser_confidence : ℚ
  parse_errors : List String
  extra : List (String × α)
deriving Repr

/-- The `.name` of a `LogLevel` member, as used by `to_dict`. -/
def LogLevel.enumName : LogLevel → String
  | .TRACE => "TRACE"
  | .DEBUG => "DEBUG"
  | .INFO => "INFO"
  | .NOTICE => "NOTICE"
  | .WARNING => "WARNING"
  | .ERROR => "ERROR"
  | .CRITICAL => "CRITICAL"
  | .ALERT => "ALERT"
  | .EMERGENCY => "EMERGENCY"
  | .UNKNOWN => "UNKNOWN"

/-- Python `LogLevel[name]` member lookup, as used by `from_dict`
(raises `KeyError` on a name that is not a member; that failure case is
modelled as `none`). -/
def LogLevel.ofEnumName : String → Option LogLevel
  | "TRACE" => some .TRACE
  | "DEBUG" => some .DEBUG
  | "INFO" => some .INFO
  | "NOTICE" => some .NOTICE
  | "WARNING" => some .WARNING
  | "ERROR" => some .ERROR
  | "CRITICAL" => some .CRITICAL
  | "ALERT" => some .ALERT
  | "EMERGENCY" => some .EMERGENCY
  | "UNKNOWN" => some .UNKNOWN
  | _ => none

/-- `LogEntry.to_dict` (lines 233-260).  `uuidEnc` models `str(self.id)`
and `tsEnc` models `datetime.isoformat()` (both Python standard
library). -/
def LogEntry.to_dict {α : Type} (uuidEnc : Nat → String) (tsEnc : Nat → String)
    (e : LogEntry α) : LogEntryDict α :=
  { id := uuidEnc e.id,
    raw := e.raw,
    timestamp := e.timestamp.map tsEnc,
    timestamp_precision := e.timestamp_precision,
    level := e.level.enumName,
    format_detected := e.format_detected,
    message := e.message,
    structured_data := e.structured_data,
    source := e.source.to_dict,
    network := e.network.map NetworkInfo.to_dict,
    http := e.http.map HTTPInfo.to_dict,
    correlation :=
      if e.correlation.to_dict.isEmptyDict then none else some e.correlation.to_dict,
    parser_name := e.parser_name,
    parser_confidence := e.parser_confidence,
    parse_errors := e.parse_errors,
    extra := e.extra }

/-- `LogEntry.from_dict` (lines 262-297).  `uuidDec` models
`UUID(string)` and `tsDec` models `dateutil.parser.parse` (a parse
failure, which raises in Python, is modelled as `none`).  The truthiness
test `if data.get("timestamp"):` makes an empty timestamp string behave
like an absent one. -/
def LogEntry.from_dict {α : Type} (uuidDec : String → Nat)
    (tsDec : String → Option Nat) (d : LogEntryDict α) : LogEntry α :=
  { id := uuidDec d.id,
    raw := d.raw,
    timestamp :=
      match d.timestamp with
      | none => none
      | some s => if s = "" then none else tsDec s,
    timestamp_precision := d.timestamp_precision,
    level := (LogLevel.ofEnumName d.level).getD .UNKNOWN,
    format_detected := d.format_detected,
    message := d.message,
    structured_data := d.structured_data,
    source := d.source,
    network := d.network,
    http := d.http,
    correlation := d.correlation.getD {},
    parser_name := d.parser_name,
    parser_confidence := d.parser_confidence,
    parse_errors := d.parse_errors,
    extra := d.extra }

/-- A concrete record used to witness the serialization round trip. -/
def rtEntry : LogEntry String :=
  { id := 7, raw := "raw line", timestamp := some 5,
    timestamp_precision := "ms", level := .ERROR,
    format_detected := "json_structured", message := "db down",
    structured_data := [("k", "v")],
    source := { file_path := some "a.log", line_number := some 3 },
    network := none, http := none,
    correlation := { request_id := some "r1" },
    parser_name := "json", parser_confidence := 1,
    parse_errors := [], extra := [("x", "y")] }

/-- Concrete stand-in for `str(uuid)` at the witness record. -/
def rtUuidEnc : Nat → String := fun n => String.mk (List.replicate n 'u')

/-- Concrete stand-in for `UUID(string)` at the witness record. -/
def rtUuidDec : String → Nat := fun s => s.data.length

/-- Concrete stand-in for `datetime.isoformat()` at the witness record. -/
def rtTsEnc : Nat → String := fun n => String.mk ( 't' :: List.replicate n 's')

/-- Concrete stand-in for `dateutil.parser.parse` at the witness record. -/
def rtTsDec : String → Option Nat := fun s => some (s.data.length - 1)

/-! ## Safety validators (`core/security.py`) and sources
(`infrastructure/sources/file_source.py`, `stdin_source.py`)

`read_lines` generators are embedded as functions on the list of lines
the underlying file / stdin iteration produces; encoding is modelled by
measuring UTF-8 byte length directly on the Lean string (which is a
sequence of unicode scalar values, exactly what Python iteration with
`errors="replace"` yields). -/

/-- `MAX_LINE_LENGTH` (`core/security.py` line 41): 10 MiB. -/
def MAX_LINE_LENGTH : Nat := 10 * 1024 * 1024

/-- `len(line.encode("utf-8", errors="replace"))`: the UTF-8 byte length
of the line. -/
def utf8Len (s : String) : Nat := (s.data.map Char.utf8Size).sum

/-- The typed security failures relevant here; `LineTooLongError` carries
`line_length` and `max_length` and has `validation_type = "line_length"`. -/
inductive SecurityFailure where
  | lineTooLong (line_length : Nat) (max_length : Nat)
deriving DecidableEq, Repr

/-- The `validation_type` tag of a security failure. -/
def SecurityFailure.validation_type : SecurityFailure → String
  | .lineTooLong _ _ => "line_length"

/-- `validate_line_length` (`core/security.py` lines 99-116): raises
`LineTooLongError` when the UTF-8 byte length exceeds `max_length`,
otherwise returns the line. -/
def validate_line_length (line : String) (maxLength : Nat) :
    Except SecurityFailure String :=
  let lineLength := utf8Len line
  if lineLength > maxLength then .error (.lineTooLong lineLength maxLength)
  else .ok line

/-- Python `line.rstrip("\n\r")`: drop every trailing newline or
carriage-return character. -/
def pyRstripNewlines (s : String) : String :=
  String.mk ((s.data.reverse.dropWhile (fun c => c == '\n' || c == '\r')).reverse)

namespace FileStreamSource

/-- `FileStreamSource.read_lines` (`file_source.py` lines 47-62): yields
each line of the open file with trailing newlines stripped.  It performs
no length validation. -/
def read_lines (lines : List String) : List String :=
  lines.map pyRstripNewlines

end FileStreamSource

namespace StdinStreamSource

/-- `StdinStreamSource.read_lines` (`stdin_source.py` lines 44-55):
yields each stdin line with trailing newlines stripped (the running
line/byte counters do not affect the produced lines).  It performs no
length validation. -/
def read_lines (lines : List String) : List String :=
  lines.map pyRstripNewlines

end StdinStreamSource

/-- A concrete line one byte over the 10 MiB limit. -/
def oversizeLine : String := String.mk (List.replicate (MAX_LINE_LENGTH + 1) 'x')

/-! ## JSON parser (`parsers/json_parser.py`) and JSON-depth validation
(`core/security.py`)

Decoded JSON values are the inductive `Json`; the outcome of
`json.loads(line.strip())` is supplied as an `Option Json` argument
(`none` models `JSONDecodeError`).  Python's `str()` rendering of a
decoded value and the shared `BaseParser._parse_timestamp` helper
(`strptime` formats plus `dateutil` fuzzy parsing) are standard-library
behaviour and are abstracted as the `JsonOracles` parameters. -/

/-- Decoded JSON values. -/
inductive Json where
  | null
  | bool (b : Bool)
  | num (n : Int)
  | str (s : String)
  | arr (items : List Json)
  | obj (fields : List (String × Json))

/-- `MAX_JSON_DEPTH` (`core/security.py` line 50). -/
def MAX_JSON_DEPTH : Nat := 50

mutual

/-- `validate_json_depth` (`core/security.py` lines 119-148): fails when
`current_depth` exceeds `max_depth`, and recurses into dict values and
list items with depth + 1 (a raise anywhere propagates, modelled as
`false`). -/
def validateJsonDepth (data : Json) (maxDepth : Nat) (currentDepth : Nat) :
    Bool :=
  if currentDepth > maxDepth then false
  else
    match data with
    | .obj fs => validateFieldsDepth fs maxDepth (currentDepth + 1)
    | .arr xs => validateItemsDepth xs maxDepth (currentDepth + 1)
    | _ => true

/-- Depth validation of every value of a JSON object. -/
def validateFieldsDepth (fs : List (String × Json)) (maxDepth : Nat)
    (d : Nat) : Bool :=
  match fs with
  | [] => true
  | kv :: rest => validateJsonDepth kv.2 maxDepth d && validateFieldsDepth rest maxDepth d

/-- Depth validation of every item of a JSON array. -/
def validateItemsDepth (xs : List Json) (maxDepth : Nat) (d : Nat) : Bool :=
  match xs with
  | [] => true
  | x :: rest => validateJsonDepth x maxDepth d && validateItemsDepth rest maxDepth d

end

/-- The Python standard-library behaviour the JSON parser depends on:
`str()` rendering of decoded values and timestamp parsing
(`BaseParser._parse_timestamp`). -/
structure JsonOracles where
  parseTimestamp : String → Option Nat
  jsonToStr : Json → String

/-- `JSONParser.TIMESTAMP_FIELDS`. -/
def TIMESTAMP_FIELDS : List String :=
  ["timestamp", "time", "@timestamp", "ts", "datetime",
   "created", "date", "logged_at", "log_time"]

/-- `JSONParser.LEVEL_FIELDS`. -/
def LEVEL_FIELDS : List String :=
  ["level", "severity", "loglevel", "log_level", "lvl",
   "levelname", "priority"]

/-- `JSONParser.MESSAGE_FIELDS`. -/
def MESSAGE_FIELDS : List String :=
  ["message", "msg", "text", "log", "body",
   "content", "event", "description"]

/-- The first probe name present in a string-keyed mapping, with its
value — the `for field in FIELDS: if field in data:` idiom. -/
def firstField {β : Type} (names : List String) (fs : List (String × β)) :
    Option (String × β) :=
  match names with
  | [] => none
  | n :: rest =>
    match fs.lookup n with
    | some v => some (n, v)
    | none => firstField rest fs

/-- `JSONParser._detect_precision` (lines 183-195): count the digits of
the fragment after the last dot, ignoring trailing Z characters. -/
def detect_precision (tsStr : String) : String :=
  if tsStr.data.contains '.' then
    let decimalPartRev := tsStr.data.reverse.takeWhile (fun c => c != '.')
    let decimalPlaces := (decimalPartRev.dropWhile (fun c => c == 'Z')).length
    if decimalPlaces ≥ 9 then "ns"
    else if decimalPlaces ≥ 6 then "us"
    else if decimalPlaces ≥ 3 then "ms"
    else "s"
  else "s"

/-- `JSONParser._create_message_summary` (lines 197-210). -/
def create_message_summary (o : JsonOracles) (fs : List (String × Json)) :
    String :=
  let parts := (["event", "action", "type", "status"].filterMap
    (fun k => (fs.lookup k).map (fun v => k ++ "=" ++ o.jsonToStr v)))
  if parts ≠ [] then String.intercalate ", " parts
  else String.intercalate ", "
    ((fs.take 3).map (fun kv => kv.1 ++ "=" ++ o.jsonToStr kv.2))

/-- `get_field` as used by `_extract_correlation` / `_extract_source`:
the `str()` of the first present probe name. -/
def getFieldStr (o : JsonOracles) (names : List String)
    (fs : List (String × Json)) : Option String :=
  (firstField names fs).map (fun kv => o.jsonToStr kv.2)

/-- `JSONParser._extract_correlation` (lines 149-165). -/
def extract_correlation (o : JsonOracles) (fs : List (String × Json)) :
    CorrelationIds :=
  { request_id := getFieldStr o ["request_id", "requestId", "req_id", "x-request-id"] fs,
    trace_id := getFieldStr o ["trace_id", "traceId", "x-trace-id", "traceid"] fs,
    span_id := getFieldStr o ["span_id", "spanId", "x-span-id"] fs,
    correlation_id := getFieldStr o ["correlation_id", "correlationId", "x-correlation-id"] fs,
    session_id := getFieldStr o ["session_id", "sessionId", "session"] fs,
    user_id := getFieldStr o ["user_id", "userId", "user", "username"] fs,
    transaction_id := getFieldStr o ["transaction_id", "transactionId", "txn_id"] fs }

/-- `JSONParser._extract_source` (lines 167-181). -/
def extract_source (o : JsonOracles) (fs : List (String × Json)) : LogSource :=
  { hostname := getFieldStr o ["hostname", "host", "server", "node"] fs,
    service := getFieldStr o ["service", "app", "application", "logger", "name"] fs,
    container_id := getFieldStr o ["container_id", "containerId", "container"] fs,
    pod_name := getFieldStr o ["pod_name", "podName", "pod"] fs,
    nspace := getFieldStr o ["namespace", "ns"] fs }

namespace JSONParser

/-- `JSONParser.parse_line` (`parsers/json_parser.py` lines 43-112).
`decoded` is the outcome of `json.loads(line.strip())`; `none` models a
`JSONDecodeError`. -/
def parse_line (o : JsonOracles) (line : String) (decoded : Option Json) :
    LogEntry Json :=
  match decoded with
  | none =>
    { raw := line, parser_name := "json",
      parse_errors := ["JSON decode error"],
      message := line, parser_confidence := 0 }
  | some data =>
    match data with
    | .obj fs =>
      if validateJsonDepth data MAX_JSON_DEPTH 0 then
        let tsInfo : Option Nat × String :=
          match firstField TIMESTAMP_FIELDS fs with
          | none => (none, "unknown")
          | some kv =>
            match o.parseTimestamp (o.jsonToStr kv.2) with
            | some ts => (some ts, detect_precision (o.jsonToStr kv.2))
            | none => (none, "unknown")
        let level :=
          match firstField LEVEL_FIELDS fs with
          | some kv => LogLevel.from_string (o.jsonToStr kv.2)
          | none => LogLevel.UNKNOWN
        let message0 :=
          match firstField MESSAGE_FIELDS fs with
          | some kv => o.jsonToStr kv.2
          | none => ""
        let message := if message0 = "" then create_message_summary o fs else message0
        let knownFields := TIMESTAMP_FIELDS ++ LEVEL_FIELDS ++ MESSAGE_FIELDS
        { raw := line, parser_name := "json",
          format_detected := "json_structured", parser_confidence := 1,
          structured_data := fs,
          timestamp := tsInfo.1, timestamp_precision := tsInfo.2,
          level := level, message := message,
          correlation := extract_correlation o fs,
          source := extract_source o fs,
          extra := fs.filter (fun kv => !(knownFields.contains kv.1)) }
      else
        { raw := line, parser_name := "json",
          parse_errors := ["JSON security validation failed: depth"],
          message := if line.data.length > 200
            then String.mk (line.data.take 200) ++ "..." else line,
          parser_confidence := 1/10 }
    | _ =>
      { raw := line, parser_name := "json",
        parse_errors := ["JSON is not an object"],
        message := o.jsonToStr data, parser_confidence := 3/10 }

end JSONParser

/-- `BaseParser._create_error_entry` (`core/base.py` lines 197-217). -/
def create_error_entry (α : Type) (parserName line errorMsg : String) :
    LogEntry α :=
  { raw := line, message := line, level := .UNKNOWN,
    format_detected := "unknown", parser_name := parserName,
    parser_confidence := 0, parse_errors := [errorMsg] }

/-- Concrete oracles for the C1 counterexample (their values are
irrelevant to the violated branch). -/
def cexJsonOracles : JsonOracles :=
  { parseTimestamp := fun _ => none, jsonToStr := fun _ => "5" }

/-! ## Generic fallback parser (`parsers/generic.py`)

The seven `TIMESTAMP_PATTERNS` regex-match-plus-parse attempts and the
compiled `LEVEL_PATTERNS` searches are standard-library regex /
`strptime` behaviour and are abstracted as the `GenericOracles` lists:
one attempt function per timestamp pattern (returning the parsed
instant and the remaining stripped message on success — the loop keeps
trying patterns until an attempt both matches and parses), and one
(search, level) pair per level pattern.  All confidence arithmetic and
control flow is the repository's own code and is embedded concretely. -/

/-- `BaseParser._infer_level_from_message` (`core/base.py` lines
152-180): case-insensitive substring scan. -/
def inferLevelFromMessage (message : String) : LogLevel :=
  let m := (pyLower message).data
  if ["error", "exception", "failed", "failure", "fatal",
      "panic"].any (fun kw => decide (kw.data <:+: m)) then .ERROR
  else if ["warn", "warning", "deprecated",
      "caution"].any (fun kw => decide (kw.data <:+: m)) then .WARNING
  else if ["debug", "trace",
      "verbose"].any (fun kw => decide (kw.data <:+: m)) then .DEBUG
  else .INFO

/-- The standard-library behaviour `GenericParser.parse_line` depends
on: the timestamp pattern attempts and the level pattern searches. -/
structure GenericOracles where
  tsAttempts : List (String → Option (Nat × String))
  levelScan : List ((String → Bool) × LogLevel)

/-- The first timestamp attempt that matches and parses (the
`for pattern, fmt in self._compiled_ts_patterns` loop: a pattern that
matches but fails to parse does not break the loop, so only the first
overall success matters). -/
def firstAttempt : List (String → Option (Nat × String)) → String →
    Option (Nat × String)
  | [], _ => none
  | f :: fs, s =>
    match f s with
    | some r => some r
    | none => firstAttempt fs s

namespace GenericParser

/-- `GenericParser.parse_line` (`parsers/generic.py` lines 60-96). -/
def parse_line (o : GenericOracles) (line : String) : LogEntry String :=
  let stripped := pyStrip line
  let tsRes := firstAttempt o.tsAttempts stripped
  let core : Option Nat × String × ℚ × String :=
    match tsRes with
    | some p => (some p.1, p.2, 5/10, "s")
    | none => (none, stripped, 3/10, "unknown")
  let lvlHit := o.levelScan.find? (fun pl => pl.1 core.2.1)
  let levelAndConf : LogLevel × ℚ :=
    match lvlHit with
    | some pl => (pl.2, min (core.2.2.1 + 2/10) (7/10))
    | none => (LogLevel.UNKNOWN, core.2.2.1)
  let level := if levelAndConf.1 = LogLevel.UNKNOWN
    then inferLevelFromMessage core.2.1 else levelAndConf.1
  { raw := line, parser_name := "generic", format_detected := "generic",
    timestamp := core.1, timestamp_precision := core.2.2.2,
    level := level, message := core.2.1,
    parser_confidence := levelAndConf.2 }

end GenericParser

/-- The message a generic parse extracts: the remainder after a matched
timestamp prefix, else the whole stripped line. -/
def genericMessage (o : GenericOracles) (line : String) : String :=
  match firstAttempt o.tsAttempts (pyStrip line) with
  | some p => p.2
  | none => pyStrip line

/-! ## Format detection (`detection/detector.py`)

A signature's pre-compiled magic patterns (`pattern.match`) and line
patterns (`pattern.search`) are regex-engine behaviour, abstracted as
`String → Bool` functions (`_compile_all_patterns` silently drops
invalid patterns, so the lists hold the successfully compiled ones);
`json.loads` success is the `jsonOk` parameter.  Scores and
confidences are exact rationals.  The Python score `dict` keyed by
signature name is an insertion-ordered association list with
overwrite-in-place update; `max(items, key=...)` is a left fold that
keeps the first maximum, and `sorted(..., reverse=True)` is a stable
descending insertion sort. -/

/-- `FormatSignature`, restricted to the fields `_score_signature`
reads. -/
structure Signature where
  name : String
  magic_patterns : List (String → Bool)
  line_patterns : List (String → Bool)
  is_json : Bool := false
  weight : ℚ := 1

/-- `FormatDetector._check_json_structure` (lines 229-252): the fraction
of lines that pass the brace test and decode. -/
def check_json_structure (jsonOk : String → Bool) (sample : List String) : ℚ :=
  if sample = [] then 0
  else (sample.countP (fun l =>
    let t := (pyStrip l).data
    (t.head? == some '\x7b') && (t.getLast? == some '\x7d') &&
      jsonOk (pyStrip l)) : ℚ) / sample.length

/-- `FormatDetector._score_signature` (lines 180-227).  The Python
guards `if magic_matches > 0` / `if line_matches > 0` are redundant
(a zero count contributes a zero ratio) and are folded in. -/
def score_signature (jsonOk : String → Bool) (sig : Signature)
    (sample : List String) : ℚ :=
  let magicRatio : ℚ :=
    (sample.countP (fun l => sig.magic_patterns.any (fun p => p l)) : ℚ) /
      sample.length
  let lineRatio : ℚ :=
    (sample.countP (fun l => sig.line_patterns.any (fun p => p l)) : ℚ) /
      sample.length
  let base := magicRatio * sig.weight * 3 + lineRatio * sig.weight * 1
  if sig.is_json then
    let js := check_json_structure jsonOk sample
    if js > 1/2 then js * sig.weight * 2 + base else 0
  else base

/-- Insertion-ordered dict update: overwrite in place or append. -/
def dictUpsert (d : List (String × ℚ)) (k : String) (v : ℚ) :
    List (String × ℚ) :=
  if (d.lookup k).isSome then
    d.map (fun kv => if kv.1 = k then (k, v) else kv)
  else d ++ [(k, v)]

/-- The `for sig in self.signatures: if score > 0: scores[sig.name] = score`
loop, with explicit accumulator. -/
def detectScoresAux (jsonOk : String → Bool) (sample : List String) :
    List Signature → List (String × ℚ) → List (String × ℚ)
  | [], acc => acc
  | sig :: rest, acc =>
    let score := score_signature jsonOk sig sample
    detectScoresAux jsonOk sample rest
      (if score > 0 then dictUpsert acc sig.name score else acc)

/-- The `scores` dict built by `detect` / `detect_all`: signatures whose
score is strictly positive, in signature order. -/
def detectScores (jsonOk : String → Bool) (sigs : List Signature)
    (sample : List String) : List (String × ℚ) :=
  detectScoresAux jsonOk sample sigs []

/-- Sample preparation common to `detect` and `detect_all`: take the
first `sample_size` lines, strip, drop empties. -/
def prepSample (lines : List String) (sampleSize : Nat) : List String :=
  (lines.take sampleSize).filterMap (fun l =>
    let t := pyStrip l
    if t = "" then none else some t)

/-- One step of Python `max(..., key=lambda x: x[1])`: keep the first of
equal keys, replace only on a strictly larger key. -/
def pickMax (a b : String × ℚ) : String × ℚ := if b.2 > a.2 then b else a

/-- Python `max(items, key=lambda x: x[1])` on a non-empty list. -/
def firstMax (a : String × ℚ) (l : List (String × ℚ)) : String × ℚ :=
  l.foldl pickMax a

/-- Python `max(values)` on a non-empty list. -/
def listMaxQ (a : ℚ) (l : List ℚ) : ℚ := l.foldl max a

/-- The confidence normalization applied to a scores entry:
`min(1.0, score / max(max_score, 1.0))`. -/
def convPair (maxScore : ℚ) (kv : String × ℚ) : String × ℚ :=
  (kv.1, min 1 (kv.2 / max maxScore 1))

/-- Stable descending insertion (by confidence): the new element goes
before the first element that is not strictly greater. -/
def insertDesc (x : String × ℚ) : List (String × ℚ) → List (String × ℚ)
  | [] => [x]
  | y :: rest => if y.2 > x.2 then y :: insertDesc x rest else x :: y :: rest

/-- Python `sorted(results, key=lambda x: x[1], reverse=True)` (stable). -/
def sortDesc : List (String × ℚ) → List (String × ℚ)
  | [] => []
  | x :: rest => insertDesc x (sortDesc rest)

namespace FormatDetector

/-- `FormatDetector.detect` (lines 63-111). -/
def detect (jsonOk : String → Bool) (sigs : List Signature)
    (lines : List String) (sampleSize : Nat) : String × ℚ :=
  let sample := prepSample lines sampleSize
  if sample = [] then ("unknown", 0)
  else
    match detectScores jsonOk sigs sample with
    | [] => ("generic", 3/10)
    | s :: rest =>
      let maxScore := listMaxQ s.2 (rest.map (fun kv => kv.2))
      let best := firstMax s rest
      (best.1, (convPair maxScore best).2)

/-- `FormatDetector.detect_all` (lines 134-178). -/
def detect_all (jsonOk : String → Bool) (sigs : List Signature)
    (lines : List String) (sampleSize : Nat) : List (String × ℚ) :=
  let sample := prepSample lines sampleSize
  if sample = [] then [("unknown", 0)]
  else
    match detectScores jsonOk sigs sample with
    | [] => [("generic", 3/10)]
    | s :: rest =>
      let maxScore := listMaxQ s.2 (rest.map (fun kv => kv.2))
      sortDesc ((s :: rest).map (convPair maxScore))

end FormatDetector

/-- The signature of the C2 counterexample: weight 1, no magic patterns,
one line pattern matching exactly the line "a". -/
def cexSig : Signature :=
  { name := "s1", magic_patterns := [],
    line_patterns := [fun s => s == "a"], is_json := false, weight := 1 }

/-- The signature of the C2 witness: weight 1, one magic pattern that
matches every line (so its score is 3 ≥ 1 on any sample). -/
def witSig : Signature :=
  { name := "w1", magic_patterns := [fun _ => true],
    line_patterns := [], is_json := false, weight := 1 }

/-! ## Correlation strategies (`infrastructure/correlation/strategies.py`)

Records here are `LogEntry String` (structured-data values modelled by
their `str()` forms, the only way the strategies read them).  A
`CorrelationGroup`'s random `uuid4` id is omitted; `datetime`
arithmetic is exact, so instants are `ℕ` ticks and the strategy's
`timedelta(seconds=window_seconds)` is an exact integer tick count. -/

/-- `CorrelationGroup` (`domain/entities.py` lines 321-348), without the
random `uuid4` id.  `sources` is a Python `set`; it is modelled as the
deduplicated list of source identifiers. -/
structure CorrelationGroup where
  correlation_key : String
  correlation_type : String
  entries : List (LogEntry String)
  sources : List String
  time_range : Option (Nat × Nat)
  metadata : List (String × Int) := []
deriving DecidableEq, Repr

/-- Python truthiness of an `Optional[str]`: `None` and the empty string
are falsy. -/
def truthyStr (o : Option String) : Bool := !((o.getD "") == "")

/-- The default `id_fields` of `RequestIdCorrelation.__init__`. -/
def DEFAULT_ID_FIELDS : List String :=
  ["request_id", "trace_id", "correlation_id", "span_id",
   "transaction_id", "x_request_id"]

namespace RequestIdCorrelation

/-- `RequestIdCorrelation._extract_id` (lines 120-138): the correlation
sub-record first (`if entry.correlation:` is always true for the
dataclass), in the fixed priority order with Python truthiness, then
the first present `id_fields` key of `structured_data` (whatever its
value). -/
def extract_id (idFields : List String) (e : LogEntry String) :
    Option String :=
  if truthyStr e.correlation.request_id then e.correlation.request_id
  else if truthyStr e.correlation.trace_id then e.correlation.trace_id
  else if truthyStr e.correlation.correlation_id then e.correlation.correlation_id
  else if truthyStr e.correlation.session_id then e.correlation.session_id
  else
    match firstField idFields e.structured_data with
    | some kv => some kv.2
    | none => none

/-- `defaultdict(list)` append under a key: extend in place or add a new
singleton group at the end (insertion order preserved). -/
def dictAppend (groups : List (String × List (LogEntry String)))
    (k : String) (e : LogEntry String) :
    List (String × List (LogEntry String)) :=
  if (groups.lookup k).isSome then
    groups.map (fun kv => if kv.1 = k then (kv.1, kv.2 ++ [e]) else kv)
  else groups ++ [(k, [e])]

/-- `RequestIdCorrelation._create_group` (lines 149-171). -/
def create_group (key : String) (entries : List (LogEntry String)) :
    CorrelationGroup :=
  let timestamps := entries.filterMap (fun e => e.timestamp)
  { correlation_key := key, correlation_type := "request_id",
    entries := entries,
    sources := (entries.map (fun e => e.source.file_path.getD "<unknown>")).dedup,
    time_range :=
      match timestamps.min?, timestamps.max? with
      | some a, some b => some (a, b)
      | _, _ => none }

/-- `RequestIdCorrelation._emit_groups` (lines 140-147): only groups
with more than one entry. -/
def emit_groups (groups : List (String × List (LogEntry String))) :
    List CorrelationGroup :=
  groups.filterMap (fun kv =>
    if kv.2.length > 1 then some (create_group kv.1 kv.2) else none)

/-- The `for entry in entries` loop of `RequestIdCorrelation.correlate`
(lines 72-118): count, flush-and-reset when the buffer overflows, then
group the entry by its id (Python truthiness) or keep it as an orphan
(orphans only feed the overflow warning, never the emitted groups). -/
def correlateAux (idFields : List String) (bufferSize : Nat) :
    List (LogEntry String) → List (String × List (LogEntry String)) →
      Nat → List CorrelationGroup
  | [], groups, _ => emit_groups groups
  | e :: rest, groups, count =>
    let count1 := count + 1
    let flushed :
        List CorrelationGroup × List (String × List (LogEntry String)) × Nat :=
      if count1 > bufferSize then (emit_groups groups, [], 0)
      else ([], groups, count1)
    let eid := extract_id idFields e
    let groups2 :=
      if truthyStr eid then dictAppend flushed.2.1 (eid.getD "") e
      else flushed.2.1
    flushed.1 ++ correlateAux idFields bufferSize rest groups2 flushed.2.2

/-- `RequestIdCorrelation.correlate`. -/
def correlate (idFields : List String) (bufferSize : Nat)
    (entries : List (LogEntry String)) : List CorrelationGroup :=
  correlateAux idFields bufferSize entries [] 0

/-- The bookkeeping invariant of the id-groups dict: keys are non-empty
and every buffered entry's extracted id is its group's key. -/
def GroupsInv (idFields : List String)
    (groups : List (String × List (LogEntry String))) : Prop :=
  ∀ kv ∈ groups, kv.1 ≠ "" ∧
    ∀ e ∈ kv.2, extract_id idFields e = some kv.1

end RequestIdCorrelation

namespace TimestampWindowCorrelation

/-- `TimestampWindowCorrelation._maybe_create_group` (lines 268-295).
The correlation key renders the window start (`isoformat` modelled as
the decimal tick count; a window with no timestamps — impossible here,
every buffered entry has one — would get a fresh uuid). -/
def maybe_create_group (minGroupSize : Nat) (requireMultipleSources : Bool)
    (windowTicks : Int) (entries : List (LogEntry String)) :
    Option CorrelationGroup :=
  if entries.length < minGroupSize then none
  else
    let sources := (entries.map (fun e => e.source.file_path.getD "<unknown>")).dedup
    if requireMultipleSources ∧ sources.length < 2 then none
    else
      let timestamps := entries.filterMap (fun e => e.timestamp)
      let time_range :=
        match timestamps.min?, timestamps.max? with
        | some a, some b => some (a, b)
        | _, _ => none
      some { correlation_key :=
               match time_range with
               | some tr => toString tr.1
               | none => "<uuid4>",
             correlation_type := "timestamp_window",
             entries := entries, sources := sources, time_range := time_range,
             metadata := [("window_seconds", windowTicks)] }

/-- The `for entry in entries` loop of
`TimestampWindowCorrelation.correlate` (lines 214-266): skip entries
without timestamps; open a window at the first timestamp; join while
`entry.timestamp - window_start <= window`; otherwise emit (if
eligible) and open a fresh window; after each entry, a window that
reached `buffer_size` is emitted and the window state reset; the final
window is emitted at end of input. -/
def correlateAux (minGroupSize : Nat) (requireMultipleSources : Bool)
    (windowTicks : Int) (bufferSize : Nat) :
    List (LogEntry String) → List (LogEntry String) → Option Nat →
      List CorrelationGroup
  | [], window, _ =>
    if window ≠ [] then
      (maybe_create_group minGroupSize requireMultipleSources windowTicks
        window).toList
    else []
  | e :: rest, window, windowStart =>
    match e.timestamp with
    | none =>
      correlateAux minGroupSize requireMultipleSources windowTicks bufferSize
        rest window windowStart
    | some t =>
      let step : List CorrelationGroup × List (LogEntry String) × Option Nat :=
        match windowStart with
        | none => ([], [e], some t)
        | some s =>
          if (t : Int) - (s : Int) ≤ windowTicks then ([], window ++ [e], some s)
          else
            ((maybe_create_group minGroupSize requireMultipleSources
                windowTicks window).toList, [e], some t)
      let step2 : List CorrelationGroup × List (LogEntry String) × Option Nat :=
        if bufferSize ≤ step.2.1.length then
          (step.1 ++ (maybe_create_group minGroupSize requireMultipleSources
              windowTicks step.2.1).toList, [], none)
        else step
      step2.1 ++ correlateAux minGroupSize requireMultipleSources windowTicks
        bufferSize rest step2.2.1 step2.2.2

/-- `TimestampWindowCorrelation.correlate`. -/
def correlate (minGroupSize : Nat) (requireMultipleSources : Bool)
    (windowTicks : Int) (bufferSize : Nat)
    (entries : List (LogEntry String)) : List CorrelationGroup :=
  correlateAux minGroupSize requireMultipleSources windowTicks bufferSize
    entries [] none

/-- Every buffered entry has a timestamp inside the window
`[s, s + windowTicks]`. -/
def Bounded (windowTicks : Int) (s : Nat)
    (entries : List (LogEntry String)) : Prop :=
  ∀ e ∈ entries, ∃ t, e.timestamp = some t ∧ s ≤ t ∧
    (t : Int) ≤ (s : Int) + windowTicks

/-- The loop invariant tying the buffered window to `window_start`. -/
def WInv (windowTicks : Int) (window : List (LogEntry String)) :
    Option Nat → Prop
  | none => window = []
  | some s => window ≠ [] ∧
      (window.head?.bind (fun e => e.timestamp)) = some s ∧
      Bounded windowTicks s window

end TimestampWindowCorrelation

/-- First witness record for grouping: request id "X", source a.log. -/
def witEntryX1 : LogEntry String :=
  { id := 1, raw := "x1", correlation := { request_id := some "X" },
    source := { file_path := some "a.log" }, timestamp := some 10 }

/-- Second witness record for grouping: request id "X", source b.log. -/
def witEntryX2 : LogEntry String :=
  { id := 2, raw := "x2", correlation := { request_id := some "X" },
    source := { file_path := some "b.log" }, timestamp := some 11 }

/-- The group the shared-identifier witness run emits. -/
def witGroupX : CorrelationGroup :=
  RequestIdCorrelation.create_group "X" [witEntryX1, witEntryX2]

/-- The group the timestamp-window witness run emits. -/
def witGroupT : CorrelationGroup :=
  { correlation_key := "10", correlation_type := "timestamp_window",
    entries := [witEntryX1, witEntryX2], sources := ["a.log", "b.log"],
    time_range := some (10, 11), metadata := [("window_seconds", 5)] }

/-! ## K-way merge (`application/correlate_logs.py`,
`CorrelateLogsUseCase._merge_sources`)

Each source iterator is a realized list of records.  The Python heap
holds tuples `(ts, source_id, entry, source)`; since at most one tuple
per source is in the heap, `(ts, source_id)` is a strict priority and
the tuple tail is never compared, so the `heapq` binary heap is
modelled as a list kept sorted by the lexicographic `(key, index)`
order (push = ordered insert, pop = head) — the same pop sequence.
`entry.timestamp or datetime.min` is the key; `datetime.min` is the
least instant, tick `0`. -/

/-- The heap key of an entry: its timestamp, or `datetime.min` (tick 0)
when absent. -/
def mergeKey (e : LogEntry String) : Nat := e.timestamp.getD 0

/-- A heap element: key, source index, pulled entry, rest of that
source. -/
def HeapItem : Type := Nat × Nat × LogEntry String × List (LogEntry String)

/-- The Python tuple order on `(ts, source_id)` pairs. -/
def lexLe (a b : Nat × Nat) : Prop := a.1 < b.1 ∨ (a.1 = b.1 ∧ a.2 ≤ b.2)

instance (a b : Nat × Nat) : Decidable (lexLe a b) := by
  unfold lexLe
  infer_instance

/-- The priority pair of a heap element. -/
def pairOf (it : HeapItem) : Nat × Nat := (it.1, it.2.1)

/-- Ordered insertion into the sorted-list heap (`heapq.heappush`). -/
def pqInsert (x : HeapItem) : List HeapItem → List HeapItem
  | [] => [x]
  | y :: rest =>
    if lexLe (pairOf y) (pairOf x) then y :: pqInsert x rest
    else x :: y :: rest

/-- Total number of entries a heap still holds (for termination). -/
def pqMeasure (h : List HeapItem) : Nat :=
  (h.map (fun it => 1 + it.2.2.2.length)).sum

/-- The entries an item holds: the pulled one plus its source's rest. -/
def itemEntries (it : HeapItem) : List (LogEntry String) :=
  it.2.2.1 :: it.2.2.2

/-- All entries a heap holds. -/
def heapEntries (h : List HeapItem) : List (LogEntry String) :=
  (h.map itemEntries).flatten

/-- `pqInsert` adds the inserted item's weight. -/
theorem pqMeasure_pqInsert (x : HeapItem) :
    ∀ h : List HeapItem, pqMeasure (pqInsert x h)
      = (1 + x.2.2.2.length) + pqMeasure h := by
  intro h
  induction h with
  | nil => simp [pqInsert, pqMeasure]
  | cons y rest ih =>
    simp only [pqInsert]
    split_ifs with hc
    · show (1 + y.2.2.2.length) + pqMeasure (pqInsert x rest)
        = (1 + x.2.2.2.length) + ((1 + y.2.2.2.length) + pqMeasure rest)
      rw [ih]
      omega
    · rfl

/-- The pop-then-push step of the merge loop: after emitting `it`, push
the next entry of `it`'s source if any. -/
def popPush (it : HeapItem) (rest : List HeapItem) : List HeapItem :=
  match it.2.2.2 with
  | [] => rest
  | e :: more => pqInsert (mergeKey e, it.2.1, e, more) rest

/-- The merge step strictly shrinks the heap's entry count. -/
theorem pqMeasure_popPush (it : HeapItem) (rest : List HeapItem) :
    pqMeasure (popPush it rest) < pqMeasure (it :: rest) := by
  unfold popPush
  cases hm : it.2.2.2 with
  | nil =>
    show pqMeasure rest < (1 + it.2.2.2.length) + pqMeasure rest
    omega
  | cons e more =>
    rw [pqMeasure_pqInsert]
    show (1 + more.length) + pqMeasure rest
      < (1 + it.2.2.2.length) + pqMeasure rest
    rw [hm]
    simp only [List.length_cons]
    omega

/-- The `while heap:` loop of `_merge_sources` (lines 151-162): pop the
least `(ts, source_id)`, emit its entry (tagged with key and source
index), and push the next entry of the same source if any. -/
def mergeGo : List HeapItem → List (Nat × Nat × LogEntry String)
  | [] => []
  | it :: rest => (it.1, it.2.1, it.2.2.1) :: mergeGo (popPush it rest)
termination_by h => pqMeasure h
decreasing_by
  exact pqMeasure_popPush _ _

/-- The initialization loop of `_merge_sources` (lines 140-149): push
the first entry of each non-empty source, tagged with its index. -/
def initHeap (sources : List (List (LogEntry String))) : List HeapItem :=
  sources.enum.foldl (fun h p =>
    match p.2 with
    | [] => h
    | e :: rest => pqInsert (mergeKey e, p.1, e, rest) h) []

/-- `_merge_sources` with each emitted record tagged by its heap key and
source index. -/
def mergeTagged (sources : List (List (LogEntry String))) :
    List (Nat × Nat × LogEntry String) :=
  mergeGo (initHeap sources)

/-- `CorrelateLogsUseCase._merge_sources` (lines 124-162). -/
def mergeSources (sources : List (List (LogEntry String))) :
    List (LogEntry String) :=
  (mergeTagged sources).map (fun t => t.2.2)

/-- Invariant of a heap element: its key is its entry's key and its
source's remaining entries are key-sorted after it. -/
def ItemInv (it : HeapItem) : Prop :=
  it.1 = mergeKey it.2.2.1 ∧
  List.Pairwise (· ≤ ·) ((itemEntries it).map mergeKey)

/-- Invariant of the heap: kept sorted by `(key, index)`, every element
well-formed. -/
def HeapInv (h : List HeapItem) : Prop :=
  List.Pairwise lexLe (h.map pairOf) ∧ ∀ it ∈ h, ItemInv it

/-! ## Theorems -/

/-- Enum-name round trip for `LogLevel` members. -/
theorem LogLevel.ofEnumName_enumName (l : LogLevel) :
    LogLevel.ofEnumName l.enumName = some l := by
  cases l <;> rfl

/-- `LogSource.to_dict` composed with rebuilding is the identity. -/
theorem LogSource.to_dict_eq_source (s : LogSource) : s.to_dict = s := rfl

/-- `NetworkInfo.to_dict` composed with rebuilding is the identity. -/
theorem NetworkInfo.to_dict_eq_network (s : NetworkInfo) : s.to_dict = s := rfl

/-- `HTTPInfo.to_dict` composed with rebuilding is the identity. -/
theorem HTTPInfo.to_dict_eq_http (s : HTTPInfo) : s.to_dict = s := rfl

/-- `CorrelationIds.to_dict` composed with rebuilding is the identity. -/
theorem CorrelationIds.to_dict_eq_corr (s : CorrelationIds) : s.to_dict = s := rfl

/-- Field-wise extensionality for `LogEntry`. -/
theorem LogEntry.ext' {α : Type} {a b : LogEntry α}
    (h1 : a.id = b.id) (h2 : a.raw = b.raw) (h3 : a.timestamp = b.timestamp)
    (h4 : a.timestamp_precision = b.timestamp_precision) (h5 : a.level = b.level)
    (h6 : a.format_detected = b.format_detected) (h7 : a.message = b.message)
    (h8 : a.structured_data = b.structured_data) (h9 : a.source = b.source)
    (h10 : a.network = b.network) (h11 : a.http = b.http)
    (h12 : a.correlation = b.correlation) (h13 : a.parser_name = b.parser_name)
    (h14 : a.parser_confidence = b.parser_confidence)
    (h15 : a.parse_errors = b.parse_errors) (h16 : a.extra = b.extra) : a = b := by
  cases a
  cases b
  subst_vars
  rfl

/-- A `CorrelationIds` whose dict is empty has every field `None`. -/
theorem CorrelationIds.eq_default_of_isEmptyDict (c : CorrelationIds)
    (h : c.isEmptyDict = true) : c = {} := by
  obtain ⟨r, t, sp, co, se, u, tr⟩ := c
  simp only [CorrelationIds.isEmptyDict, Bool.and_eq_true, Option.isNone_iff_eq_none] at h
  obtain ⟨⟨⟨⟨⟨⟨h1, h2⟩, h3⟩, h4⟩, h5⟩, h6⟩, h7⟩ := h
  subst h1 h2 h3 h4 h5 h6 h7
  rfl

/-- Claim C5 (confirmed).  For every record `R`, `from_dict (to_dict R)`
reproduces every field of `R` — in particular id, timestamp,
timestamp_precision, level, message, the source sub-fields, the
non-empty correlation fields, parse_errors and extra — provided the
standard-library codecs behave as they do in Python: `UUID(str(u))`
recovers `u`, `dateutil.parse(t.isoformat())` recovers `t`, and an
isoformat string is never empty. -/
theorem claim_C5_roundtrip {α : Type} (uuidEnc : Nat → String)
    (tsEnc : Nat → String) (uuidDec : String → Nat)
    (tsDec : String → Option Nat) (e : LogEntry α)
    (hid : uuidDec (uuidEnc e.id) = e.id)
    (hts : ∀ t, e.timestamp = some t → tsDec (tsEnc t) = some t)
    (hne : ∀ t, e.timestamp = some t → tsEnc t ≠ "") :
    LogEntry.from_dict uuidDec tsDec (LogEntry.to_dict uuidEnc tsEnc e) = e := by
  obtain ⟨i, r, ts, tp, lv, fd, ms, sd, so, nw, ht, co, pn, pc, pe, ex⟩ := e
  have hTs : (match ts.map tsEnc with
      | none => none
      | some s => if s = "" then none else tsDec s) = ts := by
    cases h : ts with
    | none => rfl
    | some t =>
      show (if tsEnc t = "" then none else tsDec (tsEnc t)) = some t
      rw [if_neg (hne t h)]
      exact hts t h
  have hLv : (LogLevel.ofEnumName lv.enumName).getD .UNKNOWN = lv := by
    rw [LogLevel.ofEnumName_enumName]
    rfl
  have hNw : nw.map NetworkInfo.to_dict = nw := by cases nw <;> rfl
  have hHt : ht.map HTTPInfo.to_dict = ht := by cases ht <;> rfl
  have hCo : (if co.to_dict.isEmptyDict then none
      else some co.to_dict : Option CorrelationIds).getD {} = co := by
    rw [CorrelationIds.to_dict_eq_corr]
    cases h : co.isEmptyDict with
    | true =>
      simp only [if_pos h]
      exact (CorrelationIds.eq_default_of_isEmptyDict co h).symm
    | false => simp only [h, Bool.false_eq_true, if_false, Option.getD_some]
  exact LogEntry.ext' hid rfl hTs rfl hLv rfl rfl rfl rfl hNw hHt hCo rfl rfl rfl rfl

/-- Claim C5, witness: the round trip applied to the concrete record
`rtEntry` with concrete codecs. -/
theorem claim_C5_witness :
    LogEntry.from_dict rtUuidDec rtTsDec
      (LogEntry.to_dict rtUuidEnc rtTsEnc rtEntry) = rtEntry := by
  apply claim_C5_roundtrip
  · decide
  · intro t h
    rw [show t = 5 by cases h; rfl]
    decide
  · intro t h
    rw [show t = 5 by cases h; rfl]
    decide

/-- The UTF-8 length of a run of `n` letters x is `n`. -/
theorem utf8Len_replicate_x (n : Nat) :
    utf8Len (String.mk (List.replicate n 'x')) = n := by
  unfold utf8Len
  rw [List.map_replicate, List.sum_replicate, smul_eq_mul,
    show Char.utf8Size 'x' = 1 from by decide, mul_one]

/-- Stripping trailing newlines from a run of letters x is the identity. -/
theorem pyRstripNewlines_replicate_x (n : Nat) :
    pyRstripNewlines (String.mk (List.replicate n 'x')) =
      String.mk (List.replicate n 'x') := by
  unfold pyRstripNewlines
  cases n with
  | zero => rfl
  | succ m =>
    rw [List.reverse_replicate, List.replicate_succ, List.dropWhile_cons,
      if_neg (by decide), ← List.replicate_succ, List.reverse_replicate]

/-- Claim C4, counterexample.  A line whose UTF-8 byte length exceeds the
10 MiB maximum is yielded unchanged by both `read_lines`
implementations; neither fails (neither ever calls
`validate_line_length`). -/
theorem claim_C4_counterexample :
    MAX_LINE_LENGTH < utf8Len oversizeLine ∧
    FileStreamSource.read_lines [oversizeLine] = [oversizeLine] ∧
    StdinStreamSource.read_lines [oversizeLine] = [oversizeLine] := by
  refine ⟨?_, ?_, ?_⟩
  · rw [show utf8Len oversizeLine = MAX_LINE_LENGTH + 1 from utf8Len_replicate_x _]
    exact Nat.lt_succ_self _
  · show [pyRstripNewlines oversizeLine] = [oversizeLine]
    rw [show pyRstripNewlines oversizeLine = oversizeLine from
      pyRstripNewlines_replicate_x _]
  · show [pyRstripNewlines oversizeLine] = [oversizeLine]
    rw [show pyRstripNewlines oversizeLine = oversizeLine from
      pyRstripNewlines_replicate_x _]

/-- Claim C4, amended.  Neither the file source nor the streaming stdin
source applies any line-length validation in `read_lines`: every line
— oversize or not — is yielded with trailing newline characters
stripped.  The `validate_line_length` helper (which no `read_lines`
calls) does implement the documented check: it returns lines whose
UTF-8 byte length is at most the maximum unchanged and fails with a
`line_length`-kind error carrying the measured length otherwise. -/
theorem claim_C4_amended :
    (∀ lines : List String,
      FileStreamSource.read_lines lines = lines.map pyRstripNewlines) ∧
    (∀ lines : List String,
      StdinStreamSource.read_lines lines = lines.map pyRstripNewlines) ∧
    (∀ (line : String) (maxLength : Nat), utf8Len line ≤ maxLength →
      validate_line_length line maxLength = .ok line) ∧
    (∀ (line : String) (maxLength : Nat), maxLength < utf8Len line →
      validate_line_length line maxLength =
        .error (.lineTooLong (utf8Len line) maxLength)) ∧
    (∀ (line : String) (maxLength : Nat) (f : SecurityFailure),
      validate_line_length line maxLength = .error f →
        f.validation_type = "line_length") := by
  refine ⟨fun _ => rfl, fun _ => rfl, ?_, ?_, ?_⟩
  · intro line maxLength h
    unfold validate_line_length
    rw [if_neg (by omega)]
  · intro line maxLength h
    unfold validate_line_length
    rw [if_pos (by omega)]
  · intro line maxLength f h
    cases f
    rfl

/-- Claim C4, witness: the amended theorem applied to a concrete
three-byte line with limits 3 and 2. -/
theorem claim_C4_witness :
    validate_line_length "abc" 3 = .ok "abc" ∧
    validate_line_length "abc" 2 = .error (.lineTooLong 3 2) := by
  constructor
  · exact claim_C4_amended.2.2.1 "abc" 3 (by decide)
  · have h := claim_C4_amended.2.2.2.1 "abc" 2 (by decide)
    rw [h]
    rw [show utf8Len "abc" = 3 from by decide]

/-- Claim C1, counterexample.  The line "5" decodes to a JSON number
(not an object): the JSON parser returns a record with non-empty
`parse_errors` and `parser_confidence = 0.3` — errors and a positive
confidence together, which the claimed dichotomy forbids. -/
theorem claim_C1_counterexample :
    (JSONParser.parse_line cexJsonOracles "5" (some (.num 5))).raw = "5" ∧
    (JSONParser.parse_line cexJsonOracles "5" (some (.num 5))).parse_errors ≠ [] ∧
    (JSONParser.parse_line cexJsonOracles "5" (some (.num 5))).parser_confidence
      = 3/10 ∧
    ((3 : ℚ)/10 ≠ 0) := by
  refine ⟨rfl, ?_, rfl, by norm_num⟩
  intro h
  simp [JSONParser.parse_line] at h

/-- Claim C1, amended.  For every line and decode outcome the JSON
parser returns (never raises) a record with `raw = L` and
`parser_name` set; `parse_errors` is empty with positive confidence on
the success path and non-empty otherwise, but the confidence on a
failure is `0` only in the decode-error branch — the non-object branch
reports confidence `0.3` and the depth-violation branch `0.1`.
`BaseParser._create_error_entry` always produces non-empty
`parse_errors` with confidence `0`. -/
theorem claim_C1_amended :
    (∀ (o : JsonOracles) (line : String) (decoded : Option Json),
      (JSONParser.parse_line o line decoded).raw = line ∧
      (JSONParser.parse_line o line decoded).parser_name = "json" ∧
      match decoded with
      | none =>
        (JSONParser.parse_line o line decoded).parse_errors ≠ [] ∧
        (JSONParser.parse_line o line decoded).parser_confidence = 0
      | some (Json.obj fs) =>
        if validateJsonDepth (Json.obj fs) MAX_JSON_DEPTH 0 then
          (JSONParser.parse_line o line decoded).parse_errors = [] ∧
          (JSONParser.parse_line o line decoded).parser_confidence = 1
        else
          (JSONParser.parse_line o line decoded).parse_errors ≠ [] ∧
          (JSONParser.parse_line o line decoded).parser_confidence = 1/10
      | some _ =>
        (JSONParser.parse_line o line decoded).parse_errors ≠ [] ∧
        (JSONParser.parse_line o line decoded).parser_confidence = 3/10) ∧
    (∀ (nm l m : String),
      (create_error_entry Json nm l m).raw = l ∧
      (create_error_entry Json nm l m).parse_errors ≠ [] ∧
      (create_error_entry Json nm l m).parser_confidence = 0) := by
  constructor
  · intro o line decoded
    cases decoded with
    | none =>
      exact ⟨rfl, rfl, by simp [JSONParser.parse_line], rfl⟩
    | some data =>
      cases data with
      | obj fs =>
        cases hv : validateJsonDepth (Json.obj fs) MAX_JSON_DEPTH 0 with
        | true =>
          exact ⟨by simp [JSONParser.parse_line, hv],
            by simp [JSONParser.parse_line, hv],
            by simp [JSONParser.parse_line, hv]⟩
        | false =>
          exact ⟨by simp [JSONParser.parse_line, hv],
            by simp [JSONParser.parse_line, hv],
            by simp [JSONParser.parse_line, hv]⟩
      | null => exact ⟨rfl, rfl, by simp [JSONParser.parse_line], rfl⟩
      | bool b => exact ⟨rfl, rfl, by simp [JSONParser.parse_line], rfl⟩
      | num n => exact ⟨rfl, rfl, by simp [JSONParser.parse_line], rfl⟩
      | str s => exact ⟨rfl, rfl, by simp [JSONParser.parse_line], rfl⟩
      | arr xs => exact ⟨rfl, rfl, by simp [JSONParser.parse_line], rfl⟩
  · intro nm l m
    exact ⟨rfl, by simp [create_error_entry], rfl⟩

/-- Claim C9 (confirmed).  The generic fallback parse confidence starts
at 0.3, gains +0.2 when a timestamp pattern matches (and parses), gains
+0.2 when a level keyword pattern matches the extracted message, and is
capped at 0.7; hence it always lies in [0.3, 0.7]. -/
theorem claim_C9_generic_confidence (o : GenericOracles) (line : String) :
    (GenericParser.parse_line o line).parser_confidence =
      min ((3 : ℚ)/10
        + (if (firstAttempt o.tsAttempts (pyStrip line)).isSome
            then (2 : ℚ)/10 else 0)
        + (if (o.levelScan.find? (fun pl => pl.1 (genericMessage o line))).isSome
            then (2 : ℚ)/10 else 0)) ((7 : ℚ)/10) ∧
    (3 : ℚ)/10 ≤ (GenericParser.parse_line o line).parser_confidence ∧
    (GenericParser.parse_line o line).parser_confidence ≤ (7 : ℚ)/10 := by
  unfold GenericParser.parse_line genericMessage
  cases hts : firstAttempt o.tsAttempts (pyStrip line) with
  | some p =>
    cases hlv : o.levelScan.find? (fun pl => pl.1 p.2) with
    | some pl =>
      simp only [hts, hlv, Option.isSome_some, if_true]
      norm_num
    | none =>
      simp only [hts, hlv, Option.isSome_none, Bool.false_eq_true, if_false]
      norm_num
  | none =>
    cases hlv : o.levelScan.find? (fun pl => pl.1 (pyStrip line)) with
    | some pl =>
      simp only [hts, hlv, Option.isSome_some, if_true]
      norm_num
    | none =>
      simp only [hts, hlv, Option.isSome_none, Bool.false_eq_true, if_false]
      norm_num

/-- Folding `pickMax` from a combined seed equals comparing against the
fold from the second seed: the first-maximum fold decomposes. -/
theorem foldl_pickMax_pickMax :
    ∀ (t : List (String × ℚ)) (a b : String × ℚ),
      t.foldl pickMax (pickMax a b) =
        if (t.foldl pickMax b).2 > a.2 then t.foldl pickMax b else a := by
  intro t
  induction t with
  | nil => intro a b; rfl
  | cons c t ih =>
    intro a b
    simp only [List.foldl_cons]
    rw [ih (pickMax a b) c, ih b c]
    simp only [pickMax]
    split_ifs <;> first | rfl | (exfalso; linarith)

/-- The head of a stable descending insertion sort is the first maximum
of the list. -/
theorem sortDesc_head :
    ∀ (l : List (String × ℚ)) (a : String × ℚ),
      (sortDesc (a :: l)).head? = some (l.foldl pickMax a) := by
  intro l
  induction l with
  | nil => intro a; rfl
  | cons b t ih =>
    intro a
    show (insertDesc a (sortDesc (b :: t))).head? = _
    cases hs : sortDesc (b :: t) with
    | nil =>
      have ihb := ih b
      rw [hs] at ihb
      simp at ihb
    | cons m s' =>
      have ihb := ih b
      rw [hs] at ihb
      simp only [List.head?_cons, Option.some.injEq] at ihb
      simp only [insertDesc, List.foldl_cons]
      rw [foldl_pickMax_pickMax t a b, ← ihb]
      split_ifs <;> rfl

/-- `max(values)` bounds the seed and every element from above. -/
theorem listMaxQ_spec (l : List ℚ) :
    ∀ a : ℚ, a ≤ listMaxQ a l ∧ ∀ x ∈ l, x ≤ listMaxQ a l := by
  induction l with
  | nil => intro a; exact ⟨le_refl a, by simp⟩
  | cons c t ih =>
    intro a
    have h := ih (max a c)
    refine ⟨le_trans (le_max_left a c) h.1, ?_⟩
    intro x hx
    rcases List.mem_cons.mp hx with h1 | h1
    · rw [h1]
      exact le_trans (le_max_right a c) h.1
    · exact h.2 x h1

/-- The value component of `pickMax` is the maximum of the values. -/
theorem pickMax_snd (a b : String × ℚ) : (pickMax a b).2 = max a.2 b.2 := by
  unfold pickMax
  rcases le_or_lt b.2 a.2 with h | h
  · rw [if_neg (not_lt.mpr h), max_eq_left h]
  · rw [if_pos h, max_eq_right (le_of_lt h)]

/-- The first-maximum fold attains exactly `max(values)`. -/
theorem firstMax_snd (l : List (String × ℚ)) :
    ∀ a : String × ℚ, (l.foldl pickMax a).2 = listMaxQ a.2 (l.map (fun kv => kv.2)) := by
  induction l with
  | nil => intro a; rfl
  | cons c t ih =>
    intro a
    simp only [List.foldl_cons, List.map_cons]
    rw [ih (pickMax a c)]
    show listMaxQ (pickMax a c).2 _ = List.foldl max (max a.2 c.2) _
    rw [pickMax_snd]
    rfl

/-- The first-maximum fold returns one of the candidates. -/
theorem firstMax_mem (l : List (String × ℚ)) :
    ∀ a : String × ℚ, l.foldl pickMax a ∈ a :: l := by
  induction l with
  | nil => intro a; exact List.mem_cons_self a []
  | cons c t ih =>
    intro a
    simp only [List.foldl_cons]
    have h := ih (pickMax a c)
    rcases List.mem_cons.mp h with h1 | h1
    · rw [h1]
      unfold pickMax
      split_ifs
      · exact List.mem_cons_of_mem a (List.mem_cons_self c t)
      · exact List.mem_cons_self a (c :: t)
    · exact List.mem_cons_of_mem a (List.mem_cons_of_mem c h1)

/-- The confidence normalization is the plain ratio on values bounded by
the maximal score, so it preserves strict comparisons there. -/
theorem convQ_gt_iff (M : ℚ) {x y : ℚ} (hx : x ≤ M) (hy : y ≤ M) :
    (min 1 (y / max M 1) > min 1 (x / max M 1)) ↔ y > x := by
  have hD : (0 : ℚ) < max M 1 := lt_of_lt_of_le one_pos (le_max_right M 1)
  have ex : min 1 (x / max M 1) = x / max M 1 :=
    min_eq_right ((div_le_one hD).mpr (le_trans hx (le_max_left M 1)))
  have ey : min 1 (y / max M 1) = y / max M 1 :=
    min_eq_right ((div_le_one hD).mpr (le_trans hy (le_max_left M 1)))
  rw [ex, ey]
  exact div_lt_div_iff_of_pos_right hD

/-- Normalization commutes with the first-maximum step on bounded values. -/
theorem pickMax_convPair (M : ℚ) {a b : String × ℚ} (ha : a.2 ≤ M)
    (hb : b.2 ≤ M) :
    pickMax (convPair M a) (convPair M b) = convPair M (pickMax a b) := by
  have hmono := convQ_gt_iff M ha hb
  unfold pickMax convPair
  by_cases h : b.2 > a.2
  · rw [if_pos (hmono.mpr h), if_pos h]
  · rw [if_neg (fun hc => h (hmono.mp hc)), if_neg h]

/-- Normalization commutes with the whole first-maximum fold on bounded
values. -/
theorem foldl_pickMax_convPair (M : ℚ) :
    ∀ (l : List (String × ℚ)) (a : String × ℚ), a.2 ≤ M →
      (∀ x ∈ l, x.2 ≤ M) →
      (l.map (convPair M)).foldl pickMax (convPair M a) =
        convPair M (l.foldl pickMax a) := by
  intro l
  induction l with
  | nil => intro a _ _; rfl
  | cons c t ih =>
    intro a ha hl
    simp only [List.map_cons, List.foldl_cons]
    rw [pickMax_convPair M ha (hl c (List.mem_cons_self c t))]
    apply ih
    · rw [pickMax_snd]
      exact max_le ha (hl c (List.mem_cons_self c t))
    · intro x hx
      exact hl x (List.mem_cons_of_mem c hx)

/-- An element of an upserted dict is an old element or carries the new
value. -/
theorem dictUpsert_mem (d : List (String × ℚ)) (k : String) (v : ℚ)
    (kv : String × ℚ) (hm : kv ∈ dictUpsert d k v) : kv ∈ d ∨ kv.2 = v := by
  unfold dictUpsert at hm
  split_ifs at hm with h
  · rcases List.mem_map.mp hm with ⟨kv', hkv', heq⟩
    by_cases hk : kv'.1 = k
    · rw [if_pos hk] at heq
      right
      rw [← heq]
    · rw [if_neg hk] at heq
      left
      rw [← heq]
      exact hkv'
  · rcases List.mem_append.mp hm with h1 | h1
    · left
      exact h1
    · right
      rw [List.mem_singleton.mp h1]

/-- Every value in the scores dict is strictly positive. -/
theorem detectScoresAux_pos (jsonOk : String → Bool) (sample : List String) :
    ∀ (sigs : List Signature) (acc : List (String × ℚ)),
      (∀ kv ∈ acc, 0 < kv.2) →
      ∀ kv ∈ detectScoresAux jsonOk sample sigs acc, 0 < kv.2 := by
  intro sigs
  induction sigs with
  | nil => intro acc h kv hm; exact h kv hm
  | cons sig rest ih =>
    intro acc h
    simp only [detectScoresAux]
    apply ih
    split_ifs with hs
    · intro kv hm
      rcases dictUpsert_mem _ _ _ _ hm with h1 | h1
      · exact h kv h1
      · rw [h1]
        exact hs
    · exact h

/-- Claim C10 (confirmed).  `detect` returns exactly the first element
of `detect_all`: the empty-sample case gives ("unknown", 0), the
no-positive-score case gives ("generic", 0.3), and otherwise the head
of the stable descending sort of the normalized scores is the
normalization of the first maximal score, which is what `detect`
computes — so the two entry points agree on winner and confidence,
ties resolved by signature insertion order in both. -/
theorem claim_C10_detect_agrees (jsonOk : String → Bool)
    (sigs : List Signature) (lines : List String) (n : Nat) :
    (FormatDetector.detect_all jsonOk sigs lines n).head? =
      some (FormatDetector.detect jsonOk sigs lines n) := by
  unfold FormatDetector.detect FormatDetector.detect_all
  by_cases hs : prepSample lines n = []
  · rw [if_pos hs, if_pos hs]
    rfl
  · rw [if_neg hs, if_neg hs]
    cases hsc : detectScores jsonOk sigs (prepSample lines n) with
    | nil => rfl
    | cons s rest =>
      have hb : s.2 ≤ listMaxQ s.2 (rest.map (fun kv => kv.2)) :=
        (listMaxQ_spec _ _).1
      have hl : ∀ x ∈ rest, x.2 ≤ listMaxQ s.2 (rest.map (fun kv => kv.2)) := by
        intro x hx
        exact (listMaxQ_spec (rest.map (fun kv => kv.2)) s.2).2 x.2
          (List.mem_map.mpr ⟨x, hx, rfl⟩)
      simp only [List.map_cons]
      rw [sortDesc_head, foldl_pickMax_convPair _ rest s hb hl]
      rfl

/-- Claim C2, counterexample.  A two-line sample where the only
signature (weight 1, one line pattern) matches one line scores
0.5 > 0, yet `detect` returns confidence 0.5, not 1.0: the code divides
by `max(max_score, 1.0)`, so a winner whose score is below 1 keeps its
raw score as confidence. -/
theorem claim_C2_counterexample :
    0 < score_signature (fun _ => false) cexSig ["a", "b"] ∧
    FormatDetector.detect (fun _ => false) [cexSig] ["a", "b"] 50
      = ("s1", 1/2) ∧
    ((1 : ℚ)/2 ≠ 1) := by
  have hm : List.countP (fun l => cexSig.magic_patterns.any (fun p => p l))
      ["a", "b"] = 0 := rfl
  have hl : List.countP (fun l => cexSig.line_patterns.any (fun p => p l))
      ["a", "b"] = 1 := rfl
  have hscore : score_signature (fun _ => false) cexSig ["a", "b"] = 1/2 := by
    show ((List.countP (fun l => cexSig.magic_patterns.any (fun p => p l))
        ["a", "b"] : ℚ) / ((["a", "b"] : List String).length) * cexSig.weight * 3
      + (List.countP (fun l => cexSig.line_patterns.any (fun p => p l))
        ["a", "b"] : ℚ) / ((["a", "b"] : List String).length) * cexSig.weight * 1)
      = 1/2
    rw [hm, hl]
    norm_num [cexSig]
  have hscores : detectScores (fun _ => false) [cexSig] ["a", "b"]
      = [("s1", 1/2)] := by
    show (if score_signature (fun _ => false) cexSig ["a", "b"] > 0 then
        dictUpsert [] cexSig.name (score_signature (fun _ => false) cexSig ["a", "b"])
      else []) = [("s1", 1/2)]
    rw [hscore, if_pos (by norm_num : (1 : ℚ)/2 > 0)]
    rfl
  refine ⟨by rw [hscore]; norm_num, ?_, by norm_num⟩
  unfold FormatDetector.detect
  rw [show prepSample ["a", "b"] 50 = ["a", "b"] from rfl,
    if_neg (by decide : ¬ (["a", "b"] = ([] : List String))), hscores]
  show ("s1", (convPair (listMaxQ (1/2) []) (firstMax ("s1", 1/2) [])).2)
    = ("s1", 1/2)
  show ("s1", min 1 ((1/2 : ℚ) / max (1/2 : ℚ) 1)) = ("s1", 1/2)
  rw [max_eq_right (by norm_num : (1 : ℚ)/2 ≤ 1), div_one,
    min_eq_right (by norm_num : (1 : ℚ)/2 ≤ 1)]

/-- Claim C2, amended.  The detector's confidence always lies in [0, 1];
and whenever at least one signature scores above zero *and the maximal
score is at least 1*, the winner's confidence equals 1.0 (the code
normalizes by `max(max_score, 1.0)`, not by `max_score` alone, so a
maximal score below 1 is returned as the confidence itself). -/
theorem claim_C2_amended (jsonOk : String → Bool) (sigs : List Signature)
    (lines : List String) (n : Nat) :
    (0 ≤ (FormatDetector.detect jsonOk sigs lines n).2 ∧
      (FormatDetector.detect jsonOk sigs lines n).2 ≤ 1) ∧
    (∀ s rest, detectScores jsonOk sigs (prepSample lines n) = s :: rest →
      prepSample lines n ≠ [] →
      1 ≤ listMaxQ s.2 (rest.map (fun kv => kv.2)) →
      (FormatDetector.detect jsonOk sigs lines n).2 = 1) := by
  constructor
  · unfold FormatDetector.detect
    by_cases hs : prepSample lines n = []
    · rw [if_pos hs]
      norm_num
    · rw [if_neg hs]
      cases hsc : detectScores jsonOk sigs (prepSample lines n) with
      | nil => norm_num
      | cons s rest =>
        have hpos : 0 < (firstMax s rest).2 := by
          have hmem := firstMax_mem rest s
          have := detectScoresAux_pos jsonOk (prepSample lines n) sigs []
            (by intro kv h; simp at h) (firstMax s rest)
          rw [show detectScoresAux jsonOk (prepSample lines n) sigs [] =
            detectScores jsonOk sigs (prepSample lines n) from rfl, hsc] at this
          exact this hmem
        have hD : (0 : ℚ) < max (listMaxQ s.2 (rest.map (fun kv => kv.2))) 1 :=
          lt_of_lt_of_le one_pos (le_max_right _ 1)
        constructor
        · show 0 ≤ (convPair _ (firstMax s rest)).2
          unfold convPair
          exact le_min (by norm_num) (le_of_lt (div_pos hpos hD))
        · show (convPair _ (firstMax s rest)).2 ≤ 1
          exact min_le_left 1 _
  · intro s rest hsc hne hmax
    unfold FormatDetector.detect
    rw [if_neg hne]
    rw [hsc]
    show (convPair _ (firstMax s rest)).2 = 1
    unfold convPair
    rw [show (firstMax s rest).2 = listMaxQ s.2 (rest.map (fun kv => kv.2)) from
      firstMax_snd rest s]
    rw [max_eq_left hmax]
    rw [div_self (ne_of_gt (lt_of_lt_of_le one_pos hmax))]
    exact min_self 1

/-- Claim C2, witness for the amended theorem: a signature whose magic
pattern matches the whole one-line sample scores 3 ≥ 1, and the
detector reports confidence exactly 1. -/
theorem claim_C2_witness :
    (FormatDetector.detect (fun _ => false) [witSig] ["a"] 50).2 = 1 := by
  have hscoreW : score_signature (fun _ => false) witSig ["a"] = 3 := by
    show ((List.countP (fun l => witSig.magic_patterns.any (fun p => p l))
        ["a"] : ℚ) / ((["a"] : List String).length) * witSig.weight * 3
      + (List.countP (fun l => witSig.line_patterns.any (fun p => p l))
        ["a"] : ℚ) / ((["a"] : List String).length) * witSig.weight * 1) = 3
    rw [show List.countP (fun l => witSig.magic_patterns.any (fun p => p l))
        ["a"] = 1 from rfl,
      show List.countP (fun l => witSig.line_patterns.any (fun p => p l))
        ["a"] = 0 from rfl]
    norm_num [witSig]
  have hscoresW : detectScores (fun _ => false) [witSig]
      (prepSample ["a"] 50) = [("w1", 3)] := by
    show (if score_signature (fun _ => false) witSig ["a"] > 0 then
        dictUpsert [] witSig.name (score_signature (fun _ => false) witSig ["a"])
      else []) = [("w1", 3)]
    rw [hscoreW, if_pos (by norm_num : (3 : ℚ) > 0)]
    rfl
  exact (claim_C2_amended (fun _ => false) [witSig] ["a"] 50).2
    ("w1", 3) [] hscoresW (by decide)
    (by show (1 : ℚ) ≤ listMaxQ 3 []; show (1 : ℚ) ≤ 3; norm_num)

/-- A truthy optional string is a `some` of a non-empty string. -/
theorem truthyStr_eq_true {o : Option String} (h : truthyStr o = true) :
    o = some (o.getD "") ∧ o.getD "" ≠ "" := by
  cases o with
  | none => simp [truthyStr] at h
  | some s =>
    simp only [truthyStr, Option.getD_some, Bool.not_eq_eq_eq_not,
      Bool.not_true, beq_eq_false_iff_ne, ne_eq] at h
    exact ⟨rfl, h⟩

/-- Groups emitted from an invariant-respecting dict satisfy the C6
property. -/
theorem emit_groups_spec (idFields : List String)
    (groups : List (String × List (LogEntry String)))
    (hinv : RequestIdCorrelation.GroupsInv idFields groups) :
    ∀ g ∈ RequestIdCorrelation.emit_groups groups,
      2 ≤ g.entries.length ∧ g.correlation_key ≠ "" ∧
      ∀ e ∈ g.entries,
        RequestIdCorrelation.extract_id idFields e = some g.correlation_key := by
  intro g hg
  rcases List.mem_filterMap.mp hg with ⟨kv, hkv, hmk⟩
  split_ifs at hmk with hlen
  · obtain ⟨hk, hmem⟩ := hinv kv hkv
    rw [← Option.some.inj hmk]
    refine ⟨?_, hk, fun e he => hmem e he⟩
    show 2 ≤ kv.2.length
    omega

/-- `dictAppend` preserves the groups invariant when the appended entry
extracts to the (non-empty) key. -/
theorem dictAppend_inv (idFields : List String)
    (groups : List (String × List (LogEntry String))) (k : String)
    (e : LogEntry String)
    (hinv : RequestIdCorrelation.GroupsInv idFields groups) (hk : k ≠ "")
    (he : RequestIdCorrelation.extract_id idFields e = some k) :
    RequestIdCorrelation.GroupsInv idFields
      (RequestIdCorrelation.dictAppend groups k e) := by
  intro kv hkv
  unfold RequestIdCorrelation.dictAppend at hkv
  split_ifs at hkv with hl
  · rcases List.mem_map.mp hkv with ⟨kv', hkv', heq⟩
    obtain ⟨hk1, hmem⟩ := hinv kv' hkv'
    by_cases hkk : kv'.1 = k
    · rw [if_pos hkk] at heq
      rw [← heq]
      refine ⟨hk1, ?_⟩
      intro x hx
      rcases List.mem_append.mp hx with h1 | h1
      · exact hmem x h1
      · rw [List.mem_singleton.mp h1, he, hkk]
    · rw [if_neg hkk] at heq
      rw [← heq]
      exact ⟨hk1, hmem⟩
  · rcases List.mem_append.mp hkv with h1 | h1
    · exact hinv kv h1
    · rw [List.mem_singleton.mp h1]
      refine ⟨hk, ?_⟩
      intro x hx
      rw [List.mem_singleton.mp hx]
      exact he

/-- The empty dict satisfies the groups invariant. -/
theorem groupsInv_nil (idFields : List String) :
    RequestIdCorrelation.GroupsInv idFields [] :=
  fun kv h => absurd h (List.not_mem_nil kv)

/-- The conditional grouping step preserves the invariant. -/
theorem groupsStep_inv (idFields : List String)
    (base : List (String × List (LogEntry String))) (e : LogEntry String)
    (hbase : RequestIdCorrelation.GroupsInv idFields base) :
    RequestIdCorrelation.GroupsInv idFields
      (if truthyStr (RequestIdCorrelation.extract_id idFields e) then
        RequestIdCorrelation.dictAppend base
          ((RequestIdCorrelation.extract_id idFields e).getD "") e
      else base) := by
  by_cases ht : truthyStr (RequestIdCorrelation.extract_id idFields e) = true
  · rw [if_pos ht]
    obtain ⟨heq, hne⟩ := truthyStr_eq_true ht
    exact dictAppend_inv idFields base _ e hbase hne heq
  · rw [if_neg ht]
    exact hbase

/-- The C6 property holds for every group the request-id loop emits
from an invariant-respecting state. -/
theorem requestId_correlateAux_spec (idFields : List String)
    (bufferSize : Nat) :
    ∀ (entries : List (LogEntry String))
      (groups : List (String × List (LogEntry String))) (count : Nat),
      RequestIdCorrelation.GroupsInv idFields groups →
      ∀ g ∈ RequestIdCorrelation.correlateAux idFields bufferSize entries
          groups count,
        2 ≤ g.entries.length ∧ g.correlation_key ≠ "" ∧
        ∀ e ∈ g.entries,
          RequestIdCorrelation.extract_id idFields e = some g.correlation_key := by
  intro entries
  induction entries with
  | nil =>
    intro groups count hinv g hg
    exact emit_groups_spec idFields groups hinv g hg
  | cons e rest ih =>
    intro groups count hinv g hg
    simp only [RequestIdCorrelation.correlateAux] at hg
    by_cases hc : count + 1 > bufferSize
    · rw [if_pos hc] at hg
      rcases List.mem_append.mp hg with h1 | h1
      · exact emit_groups_spec idFields groups hinv g h1
      · exact ih _ _ (groupsStep_inv idFields [] e (groupsInv_nil idFields)) g h1
    · rw [if_neg hc] at hg
      rcases List.mem_append.mp hg with h1 | h1
      · exact absurd h1 (List.not_mem_nil g)
      · exact ih _ _ (groupsStep_inv idFields groups e hinv) g h1

/-- Claim C6 (confirmed).  Every group the shared-identifier strategy
emits has at least two members, a non-empty correlation key, and every
member's identifier extracted in the documented priority order
(correlation request_id, trace_id, correlation_id, session_id, then
the structured-data alias fields) equals the group's key — including
groups flushed early when the buffer bound is exceeded. -/
theorem claim_C6_requestid_groups (idFields : List String)
    (bufferSize : Nat) (entries : List (LogEntry String)) :
    ∀ g ∈ RequestIdCorrelation.correlate idFields bufferSize entries,
      2 ≤ g.entries.length ∧ g.correlation_key ≠ "" ∧
      ∀ e ∈ g.entries,
        RequestIdCorrelation.extract_id idFields e = some g.correlation_key :=
  requestId_correlateAux_spec idFields bufferSize entries [] 0
    (groupsInv_nil idFields)

/-- Claim C6, witness: two records sharing request id "X" are emitted as
one group with key "X" and both members. -/
theorem claim_C6_witness :
    witGroupX ∈ RequestIdCorrelation.correlate DEFAULT_ID_FIELDS 10000
      [witEntryX1, witEntryX2] ∧
    2 ≤ witGroupX.entries.length ∧
    witGroupX.correlation_key ≠ "" ∧
    RequestIdCorrelation.extract_id DEFAULT_ID_FIELDS witEntryX1
      = some witGroupX.correlation_key := by
  have hmem : witGroupX ∈ RequestIdCorrelation.correlate DEFAULT_ID_FIELDS
      10000 [witEntryX1, witEntryX2] := by decide
  have h := claim_C6_requestid_groups DEFAULT_ID_FIELDS 10000
    [witEntryX1, witEntryX2] witGroupX hmem
  exact ⟨hmem, h.1, h.2.1, h.2.2 witEntryX1 (by decide)⟩

/-- A window group built from entries whose timestamps all lie in
`[s, s + windowTicks]` has a time range spanning at most `windowTicks`. -/
theorem maybe_create_group_bound (minG : Nat) (reqM : Bool) (wT : Int)
    (s : Nat) (entries : List (LogEntry String))
    (hb : TimestampWindowCorrelation.Bounded wT s entries)
    (g : CorrelationGroup)
    (hg : TimestampWindowCorrelation.maybe_create_group minG reqM wT entries
      = some g) :
    ∀ a b, g.time_range = some (a, b) → (b : Int) - (a : Int) ≤ wT := by
  intro a b htr
  simp only [TimestampWindowCorrelation.maybe_create_group] at hg
  split_ifs at hg with h1 h2
  rw [← Option.some.inj hg] at htr
  cases hmin : (entries.filterMap (fun e => e.timestamp)).min? with
  | none =>
    simp only [hmin] at htr
    exact absurd htr (by simp)
  | some mn =>
    cases hmax : (entries.filterMap (fun e => e.timestamp)).max? with
    | none =>
      simp only [hmin, hmax] at htr
      exact absurd htr (by simp)
    | some mx =>
      simp only [hmin, hmax, Option.some.injEq, Prod.mk.injEq] at htr
      obtain ⟨ha, hbx⟩ := htr
      have hamem : a ∈ entries.filterMap (fun e => e.timestamp) := by
        rw [← ha]
        exact List.min?_mem (fun x y => min_choice x y) hmin
      have hbmem : b ∈ entries.filterMap (fun e => e.timestamp) := by
        rw [← hbx]
        exact List.max?_mem (fun x y => max_choice x y) hmax
      obtain ⟨ea, hea, hta⟩ := List.mem_filterMap.mp hamem
      obtain ⟨eb, heb, htb⟩ := List.mem_filterMap.mp hbmem
      obtain ⟨t1, ht1, hlo1, hhi1⟩ := hb ea hea
      obtain ⟨t2, ht2, hlo2, hhi2⟩ := hb eb heb
      rw [ht1] at hta
      rw [ht2] at htb
      have e1 : t1 = a := Option.some.inj hta
      have e2 : t2 = b := Option.some.inj htb
      have hcast : (s : Int) ≤ (t1 : Int) := by exact_mod_cast hlo1
      rw [← e1, ← e2]
      omega

/-- The C7 bound holds for every group the window loop emits from an
invariant-respecting state on timestamp-sorted input. -/
theorem twc_correlateAux_bound (minG : Nat) (reqM : Bool) (wT : Int)
    (hw : 0 ≤ wT) (bufSize : Nat) :
    ∀ (rest window : List (LogEntry String)) (ws : Option Nat),
      TimestampWindowCorrelation.WInv wT window ws →
      List.Pairwise (· ≤ ·)
        (window.filterMap (fun e => e.timestamp) ++
          rest.filterMap (fun e => e.timestamp)) →
      ∀ g ∈ TimestampWindowCorrelation.correlateAux minG reqM wT bufSize
          rest window ws,
        ∀ a b, g.time_range = some (a, b) → (b : Int) - (a : Int) ≤ wT := by
  intro rest
  induction rest with
  | nil =>
    intro window ws hinv _hp g hg
    simp only [TimestampWindowCorrelation.correlateAux] at hg
    split_ifs at hg with hne
    · cases ws with
      | none =>
        rw [show window = [] from hinv] at hne
        exact absurd rfl hne
      | some s =>
        obtain ⟨_, _, hb⟩ := hinv
        rcases Option.mem_toList.mp hg with hsome
        exact maybe_create_group_bound minG reqM wT s window hb g
          (Option.mem_def.mp hsome)
    · exact absurd hg (List.not_mem_nil g)
  | cons e rest ih =>
    intro window ws hinv hp g hg
    cases hts : e.timestamp with
    | none =>
      simp only [TimestampWindowCorrelation.correlateAux, hts] at hg
      refine ih window ws hinv ?_ g hg
      have heq : (e :: rest).filterMap (fun x => x.timestamp)
          = rest.filterMap (fun x => x.timestamp) := by
        simp [List.filterMap_cons, hts]
      rw [heq] at hp
      exact hp
    | some t =>
      have hpr : (e :: rest).filterMap (fun x => x.timestamp)
          = t :: rest.filterMap (fun x => x.timestamp) := by
        simp [List.filterMap_cons, hts]
      rw [hpr] at hp
      cases ws with
      | none =>
        -- fresh window [e]
        have hwnil : window = [] := hinv
        subst hwnil
        simp only [List.filterMap_nil, List.nil_append] at hp
        simp only [TimestampWindowCorrelation.correlateAux, hts] at hg
        have hb1 : TimestampWindowCorrelation.Bounded wT t [e] := by
          intro x hx
          rw [List.mem_singleton.mp hx]
          exact ⟨t, hts, le_refl t, by omega⟩
        by_cases hbuf : bufSize ≤ ([e] : List (LogEntry String)).length
        · rw [if_pos hbuf] at hg
          rcases List.mem_append.mp hg with h1 | h1
          · rcases List.mem_append.mp h1 with h2 | h2
            · exact absurd h2 (List.not_mem_nil g)
            · exact maybe_create_group_bound minG reqM wT t [e] hb1 g
                (Option.mem_def.mp (Option.mem_toList.mp h2))
          · refine ih [] none rfl ?_ g h1
            simp only [List.filterMap_nil, List.nil_append]
            exact hp.sublist (List.sublist_cons_self t _)
        · rw [if_neg hbuf] at hg
          rcases List.mem_append.mp hg with h1 | h1
          · exact absurd h1 (List.not_mem_nil g)
          · refine ih [e] (some t) ⟨by simp, by simp [hts], hb1⟩ ?_ g h1
            have heq : ([e] : List (LogEntry String)).filterMap
                (fun x => x.timestamp) = [t] := by simp [hts]
            rw [heq]
            exact hp
      | some s =>
        obtain ⟨hwne, hhead, hb⟩ := hinv
        have hsmem : s ∈ window.filterMap (fun x => x.timestamp) := by
          cases window with
          | nil => exact absurd rfl hwne
          | cons w0 w' =>
            exact List.mem_filterMap.mpr ⟨w0, List.mem_cons_self w0 w', hhead⟩
        have hst : s ≤ t := by
          have h3 := (List.pairwise_append.mp hp).2.2
          exact h3 s hsmem t (List.mem_cons_self t _)
        simp only [TimestampWindowCorrelation.correlateAux, hts] at hg
        by_cases hjoin : (t : Int) - (s : Int) ≤ wT
        · -- entry joins the window
          rw [if_pos hjoin] at hg
          have hbj : TimestampWindowCorrelation.Bounded wT s (window ++ [e]) := by
            intro x hx
            rcases List.mem_append.mp hx with h1 | h1
            · exact hb x h1
            · rw [List.mem_singleton.mp h1]
              exact ⟨t, hts, hst, by omega⟩
          have hpj : List.Pairwise (· ≤ ·)
              ((window ++ [e]).filterMap (fun x => x.timestamp) ++
                rest.filterMap (fun x => x.timestamp)) := by
            have heq : (window ++ [e]).filterMap (fun x => x.timestamp)
                = window.filterMap (fun x => x.timestamp) ++ [t] := by
              simp [List.filterMap_append, hts]
            rw [heq, List.append_assoc]
            exact hp
          by_cases hbuf : bufSize ≤ (window ++ [e]).length
          · rw [if_pos hbuf] at hg
            rcases List.mem_append.mp hg with h1 | h1
            · rcases List.mem_append.mp h1 with h2 | h2
              · exact absurd h2 (List.not_mem_nil g)
              · exact maybe_create_group_bound minG reqM wT s (window ++ [e])
                  hbj g (Option.mem_def.mp (Option.mem_toList.mp h2))
            · refine ih [] none rfl ?_ g h1
              simp only [List.filterMap_nil, List.nil_append]
              have h4 := (List.pairwise_append.mp hp).2.1
              exact h4.sublist (List.sublist_cons_self t _)
          · rw [if_neg hbuf] at hg
            rcases List.mem_append.mp hg with h1 | h1
            · exact absurd h1 (List.not_mem_nil g)
            · refine ih (window ++ [e]) (some s) ⟨by simp [hwne], ?_, hbj⟩
                hpj g h1
              cases window with
              | nil => exact absurd rfl hwne
              | cons w0 w' => exact hhead
        · -- window closes: emit, open a fresh window at t
          rw [if_neg hjoin] at hg
          have hb1 : TimestampWindowCorrelation.Bounded wT t [e] := by
            intro x hx
            rw [List.mem_singleton.mp hx]
            exact ⟨t, hts, le_refl t, by omega⟩
          by_cases hbuf : bufSize ≤ ([e] : List (LogEntry String)).length
          · rw [if_pos hbuf] at hg
            rcases List.mem_append.mp hg with h1 | h1
            · rcases List.mem_append.mp h1 with h2 | h2
              · exact maybe_create_group_bound minG reqM wT s window hb g
                  (Option.mem_def.mp (Option.mem_toList.mp h2))
              · exact maybe_create_group_bound minG reqM wT t [e] hb1 g
                  (Option.mem_def.mp (Option.mem_toList.mp h2))
            · refine ih [] none rfl ?_ g h1
              simp only [List.filterMap_nil, List.nil_append]
              have h4 := (List.pairwise_append.mp hp).2.1
              exact h4.sublist (List.sublist_cons_self t _)
          · rw [if_neg hbuf] at hg
            rcases List.mem_append.mp hg with h1 | h1
            · exact maybe_create_group_bound minG reqM wT s window hb g
                (Option.mem_def.mp (Option.mem_toList.mp h1))
            · refine ih [e] (some t) ⟨by simp, by simp [hts], hb1⟩ ?_ g h1
              have heq : ([e] : List (LogEntry String)).filterMap
                  (fun x => x.timestamp) = [t] := by simp [hts]
              rw [heq]
              show List.Pairwise (· ≤ ·)
                (t :: rest.filterMap (fun x => x.timestamp))
              exact (List.pairwise_append.mp hp).2.1

/-- Claim C7 (confirmed).  On input sorted by timestamp, every group the
timestamp-window strategy emits — including windows flushed early when
`buffer_size` is reached and the final window at end of input — has
`max(timestamps) − min(timestamps) ≤ window` (the window length in
ticks, assumed non-negative). -/
theorem claim_C7_window_bound (minG : Nat) (reqM : Bool) (wT : Int)
    (bufSize : Nat) (entries : List (LogEntry String)) (hw : 0 ≤ wT)
    (hsorted : List.Pairwise (· ≤ ·)
      (entries.filterMap (fun e => e.timestamp))) :
    ∀ g ∈ TimestampWindowCorrelation.correlate minG reqM wT bufSize entries,
      ∀ a b, g.time_range = some (a, b) → (b : Int) - (a : Int) ≤ wT := by
  have h := twc_correlateAux_bound minG reqM wT hw bufSize entries [] none rfl
    (by simpa using hsorted)
  exact h

/-- Claim C7, witness: two sorted records from two sources, window 5
ticks, emitted as one group whose time range spans 1 ≤ 5 ticks. -/
theorem claim_C7_witness :
    witGroupT ∈ TimestampWindowCorrelation.correlate 2 true 5 10000
      [witEntryX1, witEntryX2] ∧
    witGroupT.time_range = some (10, 11) ∧
    ((11 : Int) - (10 : Int) ≤ 5) := by
  have hmem : witGroupT ∈ TimestampWindowCorrelation.correlate 2 true 5 10000
      [witEntryX1, witEntryX2] := by decide
  refine ⟨hmem, ?_, ?_⟩
  · rfl
  · exact claim_C7_window_bound 2 true 5 10000 [witEntryX1, witEntryX2]
      (by norm_num) (by decide) witGroupT hmem 10 11 rfl

/-- Reflexivity of the Python tuple order. -/
theorem lexLe_refl (a : Nat × Nat) : lexLe a a := Or.inr ⟨rfl, le_refl _⟩

/-- Transitivity of the Python tuple order. -/
theorem lexLe_trans {a b c : Nat × Nat} (h1 : lexLe a b) (h2 : lexLe b c) :
    lexLe a c := by
  rcases h1 with h1 | ⟨h1, h1i⟩ <;> rcases h2 with h2 | ⟨h2, h2i⟩
  · exact Or.inl (lt_trans h1 h2)
  · exact Or.inl (h2 ▸ h1)
  · exact Or.inl (h1 ▸ h2)
  · exact Or.inr ⟨h1.trans h2, h1i.trans h2i⟩

/-- Totality of the Python tuple order. -/
theorem lexLe_total (a b : Nat × Nat) : lexLe a b ∨ lexLe b a := by
  rcases lt_trichotomy a.1 b.1 with h | h | h
  · exact Or.inl (Or.inl h)
  · rcases le_total a.2 b.2 with h2 | h2
    · exact Or.inl (Or.inr ⟨h, h2⟩)
    · exact Or.inr (Or.inr ⟨h.symm, h2⟩)
  · exact Or.inr (Or.inl h)

/-- Membership in an ordered insertion. -/
theorem pqInsert_mem_iff (x : HeapItem) :
    ∀ (h : List HeapItem) (y : HeapItem), y ∈ pqInsert x h ↔ y = x ∨ y ∈ h := by
  intro h
  induction h with
  | nil =>
    intro y
    simp [pqInsert]
  | cons z rest ih =>
    intro y
    simp only [pqInsert]
    split_ifs with hc
    · simp only [List.mem_cons, ih y]
      tauto
    · simp only [List.mem_cons]

/-- Ordered insertion preserves heap sortedness. -/
theorem pqInsert_sorted (x : HeapItem) :
    ∀ h : List HeapItem, List.Pairwise lexLe (h.map pairOf) →
      List.Pairwise lexLe ((pqInsert x h).map pairOf) := by
  intro h
  induction h with
  | nil =>
    intro _
    simp [pqInsert]
  | cons y rest ih =>
    intro hp
    rw [List.map_cons] at hp
    have hyp := List.pairwise_cons.mp hp
    simp only [pqInsert]
    split_ifs with hc
    · rw [List.map_cons]
      refine List.pairwise_cons.mpr ⟨?_, ih hyp.2⟩
      intro z hz
      rcases List.mem_map.mp hz with ⟨w, hw, hwz⟩
      rcases (pqInsert_mem_iff x rest w).mp hw with h1 | h1
      · rw [← hwz, h1]
        exact hc
      · exact hyp.1 z (by rw [← hwz]; exact List.mem_map_of_mem pairOf h1)
    · rw [List.map_cons, List.map_cons]
      refine List.pairwise_cons.mpr ⟨?_, hp⟩
      intro z hz
      have hxy : lexLe (pairOf x) (pairOf y) :=
        (lexLe_total (pairOf y) (pairOf x)).resolve_left hc
      rcases List.mem_cons.mp hz with h1 | h1
      · rw [h1]
        exact hxy
      · exact lexLe_trans hxy (hyp.1 z h1)

/-- Ordered insertion permutes in the inserted item's entries. -/
theorem heapEntries_pqInsert (x : HeapItem) :
    ∀ h : List HeapItem,
      heapEntries (pqInsert x h) ~ itemEntries x ++ heapEntries h := by
  intro h
  induction h with
  | nil =>
    simp [pqInsert, heapEntries]
  | cons y rest ih =>
    simp only [pqInsert]
    split_ifs with hc
    · show itemEntries y ++ heapEntries (pqInsert x rest)
        ~ itemEntries x ++ (itemEntries y ++ heapEntries rest)
      calc itemEntries y ++ heapEntries (pqInsert x rest)
          ~ itemEntries y ++ (itemEntries x ++ heapEntries rest) :=
            ih.append_left _
        _ ~ itemEntries x ++ (itemEntries y ++ heapEntries rest) := by
            rw [← List.append_assoc, ← List.append_assoc]
            exact (List.perm_append_comm).append_right _
    · exact List.Perm.refl _

/-- The merge step preserves per-item well-formedness. -/
theorem popPush_items (it : HeapItem) (rest : List HeapItem)
    (hitems : ∀ x ∈ it :: rest, ItemInv x) :
    ∀ x ∈ popPush it rest, ItemInv x := by
  intro x hx
  unfold popPush at hx
  cases hm : it.2.2.2 with
  | nil =>
    rw [hm] at hx
    exact hitems x (List.mem_cons_of_mem _ hx)
  | cons e more =>
    rw [hm] at hx
    rcases (pqInsert_mem_iff _ _ _).mp hx with h1 | h1
    · rw [h1]
      obtain ⟨_, hps⟩ := hitems it (List.mem_cons_self _ _)
      refine ⟨rfl, ?_⟩
      unfold itemEntries at hps
      rw [hm] at hps
      rw [List.map_cons] at hps
      exact (List.pairwise_cons.mp hps).2
    · exact hitems x (List.mem_cons_of_mem _ h1)

/-- The merge step preserves the heap invariant. -/
theorem popPush_inv (it : HeapItem) (rest : List HeapItem)
    (hinv : HeapInv (it :: rest)) : HeapInv (popPush it rest) := by
  obtain ⟨hsort, hitems⟩ := hinv
  rw [List.map_cons] at hsort
  have hsrest := (List.pairwise_cons.mp hsort).2
  refine ⟨?_, popPush_items it rest hitems⟩
  unfold popPush
  cases hm : it.2.2.2 with
  | nil => exact hsrest
  | cons e more => exact pqInsert_sorted _ rest hsrest

/-- Every element the merge step leaves in the heap dominates the popped
priority. -/
theorem popPush_lb (it : HeapItem) (rest : List HeapItem)
    (hinv : HeapInv (it :: rest)) :
    ∀ z ∈ popPush it rest, lexLe (pairOf it) (pairOf z) := by
  obtain ⟨hsort, hitems⟩ := hinv
  rw [List.map_cons] at hsort
  have hhead := (List.pairwise_cons.mp hsort).1
  intro z hz
  unfold popPush at hz
  cases hm : it.2.2.2 with
  | nil =>
    rw [hm] at hz
    exact hhead (pairOf z) (List.mem_map_of_mem pairOf hz)
  | cons e more =>
    rw [hm] at hz
    rcases (pqInsert_mem_iff _ _ _).mp hz with h1 | h1
    · rw [h1]
      obtain ⟨hk, hps⟩ := hitems it (List.mem_cons_self _ _)
      have hle2 : mergeKey it.2.2.1 ≤ mergeKey e := by
        unfold itemEntries at hps
        rw [hm] at hps
        rw [List.map_cons] at hps
        exact (List.pairwise_cons.mp hps).1 (mergeKey e) (by simp)
      show lexLe (it.1, it.2.1) (mergeKey e, it.2.1)
      rw [hk]
      rcases lt_or_eq_of_le hle2 with h2 | h2
      · exact Or.inl h2
      · exact Or.inr ⟨h2, le_refl _⟩
    · exact hhead (pairOf z) (List.mem_map_of_mem pairOf h1)

/-- The merge step conserves the heap's entries (up to permutation). -/
theorem heapEntries_popPush (it : HeapItem) (rest : List HeapItem) :
    heapEntries (popPush it rest) ~ it.2.2.2 ++ heapEntries rest := by
  unfold popPush
  cases hm : it.2.2.2 with
  | nil => simp
  | cons e more =>
    calc heapEntries (pqInsert (mergeKey e, it.2.1, e, more) rest)
        ~ itemEntries (mergeKey e, it.2.1, e, more) ++ heapEntries rest :=
          heapEntries_pqInsert _ rest
      _ = (e :: more) ++ heapEntries rest := rfl

/-- A non-empty heap has positive measure. -/
theorem pqMeasure_cons (it : HeapItem) (rest : List HeapItem) :
    pqMeasure (it :: rest) = (1 + it.2.2.2.length) + pqMeasure rest := rfl

/-- Every record the merge loop emits carries a priority dominating any
lower bound that dominates the heap. -/
theorem mergeGo_lb :
    ∀ (n : Nat) (h : List HeapItem), pqMeasure h ≤ n → HeapInv h →
      ∀ b : Nat × Nat, (∀ it ∈ h, lexLe b (pairOf it)) →
      ∀ p ∈ mergeGo h, lexLe b (p.1, p.2.1) := by
  intro n
  induction n with
  | zero =>
    intro h hm _ b _ p hp
    cases h with
    | nil =>
      simp only [mergeGo] at hp
      exact absurd hp (List.not_mem_nil p)
    | cons it rest =>
      rw [pqMeasure_cons] at hm
      omega
  | succ m ih =>
    intro h hm hinv b hb p hp
    cases h with
    | nil =>
      simp only [mergeGo] at hp
      exact absurd hp (List.not_mem_nil p)
    | cons it rest =>
      simp only [mergeGo] at hp
      rcases List.mem_cons.mp hp with h1 | h1
      · rw [h1]
        exact hb it (List.mem_cons_self _ _)
      · refine ih (popPush it rest) ?_ (popPush_inv it rest hinv) b ?_ p h1
        · have := pqMeasure_popPush it rest
          omega
        · intro z hz
          exact lexLe_trans (hb it (List.mem_cons_self _ _))
            (popPush_lb it rest hinv z hz)

/-- Every record the merge loop emits carries its entry's key. -/
theorem mergeGo_keys :
    ∀ (n : Nat) (h : List HeapItem), pqMeasure h ≤ n →
      (∀ it ∈ h, ItemInv it) →
      ∀ p ∈ mergeGo h, p.1 = mergeKey p.2.2 := by
  intro n
  induction n with
  | zero =>
    intro h hm _ p hp
    cases h with
    | nil =>
      simp only [mergeGo] at hp
      exact absurd hp (List.not_mem_nil p)
    | cons it rest =>
      rw [pqMeasure_cons] at hm
      omega
  | succ m ih =>
    intro h hm hitems p hp
    cases h with
    | nil =>
      simp only [mergeGo] at hp
      exact absurd hp (List.not_mem_nil p)
    | cons it rest =>
      simp only [mergeGo] at hp
      rcases List.mem_cons.mp hp with h1 | h1
      · rw [h1]
        exact (hitems it (List.mem_cons_self _ _)).1
      · refine ih (popPush it rest) ?_ (popPush_items it rest hitems) p h1
        have := pqMeasure_popPush it rest
        omega

/-- The merge loop emits priorities in non-decreasing lexicographic
order. -/
theorem mergeGo_sorted :
    ∀ (n : Nat) (h : List HeapItem), pqMeasure h ≤ n → HeapInv h →
      List.Pairwise lexLe ((mergeGo h).map (fun p => (p.1, p.2.1))) := by
  intro n
  induction n with
  | zero =>
    intro h hm _
    cases h with
    | nil =>
      simp only [mergeGo]
      exact List.Pairwise.nil
    | cons it rest =>
      rw [pqMeasure_cons] at hm
      omega
  | succ m ih =>
    intro h hm hinv
    cases h with
    | nil =>
      simp only [mergeGo]
      exact List.Pairwise.nil
    | cons it rest =>
      simp only [mergeGo, List.map_cons]
      have hdec : pqMeasure (popPush it rest) ≤ m := by
        have := pqMeasure_popPush it rest
        omega
      refine List.pairwise_cons.mpr ⟨?_, ih (popPush it rest) hdec
        (popPush_inv it rest hinv)⟩
      intro z hz
      rcases List.mem_map.mp hz with ⟨p, hp, hpz⟩
      rw [← hpz]
      exact mergeGo_lb m (popPush it rest) hdec (popPush_inv it rest hinv)
        (pairOf it) (popPush_lb it rest hinv) p hp

/-- The merge loop emits exactly the heap's entries (a permutation). -/
theorem mergeGo_perm :
    ∀ (n : Nat) (h : List HeapItem), pqMeasure h ≤ n →
      (mergeGo h).map (fun p => p.2.2) ~ heapEntries h := by
  intro n
  induction n with
  | zero =>
    intro h hm
    cases h with
    | nil =>
      simp only [mergeGo]
      exact List.Perm.refl _
    | cons it rest =>
      rw [pqMeasure_cons] at hm
      omega
  | succ m ih =>
    intro h hm
    cases h with
    | nil =>
      simp only [mergeGo]
      exact List.Perm.refl _
    | cons it rest =>
      simp only [mergeGo, List.map_cons]
      have hdec : pqMeasure (popPush it rest) ≤ m := by
        have := pqMeasure_popPush it rest
        omega
      calc it.2.2.1 :: (mergeGo (popPush it rest)).map (fun p => p.2.2)
          ~ it.2.2.1 :: heapEntries (popPush it rest) :=
            (ih (popPush it rest) hdec).cons _
        _ ~ it.2.2.1 :: (it.2.2.2 ++ heapEntries rest) :=
            (heapEntries_popPush it rest).cons _
        _ = heapEntries (it :: rest) := rfl

/-- The initialization fold preserves the heap invariant when every
remaining source is key-sorted. -/
theorem initHeap_foldl_inv :
    ∀ (ps : List (Nat × List (LogEntry String))) (acc : List HeapItem),
      HeapInv acc →
      (∀ p ∈ ps, List.Pairwise (· ≤ ·) (p.2.map mergeKey)) →
      HeapInv (ps.foldl (fun h p =>
        match p.2 with
        | [] => h
        | e :: rest => pqInsert (mergeKey e, p.1, e, rest) h) acc) := by
  intro ps
  induction ps with
  | nil => intro acc hacc _; exact hacc
  | cons q ps ih =>
    intro acc hacc hps
    simp only [List.foldl_cons]
    refine ih _ ?_ (fun p hp => hps p (List.mem_cons_of_mem _ hp))
    cases hq : q.2 with
    | nil => exact hacc
    | cons e rest =>
      constructor
      · exact pqInsert_sorted _ acc hacc.1
      · intro x hx
        rcases (pqInsert_mem_iff _ _ _).mp hx with h1 | h1
        · rw [h1]
          refine ⟨rfl, ?_⟩
          have hq2 := hps q (List.mem_cons_self _ _)
          rw [hq] at hq2
          exact hq2
        · exact hacc.2 x h1

/-- The initialization fold collects every source's entries. -/
theorem heapEntries_initHeap_foldl :
    ∀ (ps : List (Nat × List (LogEntry String))) (acc : List HeapItem),
      heapEntries (ps.foldl (fun h p =>
        match p.2 with
        | [] => h
        | e :: rest => pqInsert (mergeKey e, p.1, e, rest) h) acc)
        ~ heapEntries acc ++ (ps.map (fun p => p.2)).flatten := by
  intro ps
  induction ps with
  | nil =>
    intro acc
    simp
  | cons q ps ih =>
    intro acc
    simp only [List.foldl_cons, List.map_cons, List.flatten_cons]
    have hstep : heapEntries (match q.2 with
        | [] => acc
        | e :: rest => pqInsert (mergeKey e, q.1, e, rest) acc)
        ~ heapEntries acc ++ q.2 := by
      cases hq : q.2 with
      | nil => simp
      | cons e rest =>
        calc heapEntries (pqInsert (mergeKey e, q.1, e, rest) acc)
            ~ itemEntries (mergeKey e, q.1, e, rest) ++ heapEntries acc :=
              heapEntries_pqInsert _ acc
          _ = (e :: rest) ++ heapEntries acc := rfl
          _ ~ heapEntries acc ++ (e :: rest) := List.perm_append_comm
    calc heapEntries (ps.foldl _ _)
        ~ heapEntries (match q.2 with
            | [] => acc
            | e :: rest => pqInsert (mergeKey e, q.1, e, rest) acc)
            ++ (ps.map (fun p => p.2)).flatten := ih _
      _ ~ (heapEntries acc ++ q.2) ++ (ps.map (fun p => p.2)).flatten :=
          hstep.append_right _
      _ = heapEntries acc ++ (q.2 ++ (ps.map (fun p => p.2)).flatten) :=
          List.append_assoc _ _ _

/-- Claim C3 (confirmed).  For every list of record sources each of which
is sorted by merge key (the record's timestamp, with a missing timestamp
keyed as the minimum instant, tick 0, hence before all real timestamps),
`_merge_sources` emits exactly the records of all sources (a
permutation of their concatenation), its output is non-decreasing in
merge key, and the emitted `(key, source index)` priorities are
non-decreasing in the lexicographic tuple order — so ties between
sources are broken by source insertion index. -/
theorem claim_C3_merge_order (sources : List (List (LogEntry String)))
    (hsorted : ∀ src ∈ sources, List.Pairwise (· ≤ ·) (src.map mergeKey)) :
    mergeSources sources ~ sources.flatten ∧
    List.Pairwise (· ≤ ·) ((mergeSources sources).map mergeKey) ∧
    List.Pairwise lexLe
      ((mergeTagged sources).map (fun p => (p.1, p.2.1))) := by
  have hps : ∀ p ∈ sources.enum,
      List.Pairwise (· ≤ ·) (p.2.map mergeKey) := by
    intro p hp
    refine hsorted p.2 ?_
    have hm := List.mem_map_of_mem Prod.snd hp
    rwa [List.enum_map_snd] at hm
  have hinv : HeapInv (initHeap sources) := by
    refine initHeap_foldl_inv sources.enum [] ?_ hps
    exact ⟨List.Pairwise.nil, fun it hit => absurd hit (List.not_mem_nil it)⟩
  have hheap : heapEntries (initHeap sources) ~ sources.flatten := by
    have h1 := heapEntries_initHeap_foldl sources.enum []
    have h2 : (sources.enum.map (fun p => p.2)).flatten = sources.flatten := by
      rw [show (fun p : Nat × List (LogEntry String) => p.2) = Prod.snd
        from rfl, List.enum_map_snd]
    rw [h2] at h1
    simpa [heapEntries, initHeap] using h1
  have hperm : mergeSources sources ~ sources.flatten :=
    List.Perm.trans
      (mergeGo_perm (pqMeasure (initHeap sources)) (initHeap sources)
        (le_refl _)) hheap
  have hsorted2 : List.Pairwise lexLe
      ((mergeTagged sources).map (fun p => (p.1, p.2.1))) :=
    mergeGo_sorted (pqMeasure (initHeap sources)) (initHeap sources)
      (le_refl _) hinv
  refine ⟨hperm, ?_, hsorted2⟩
  have hfst : List.Pairwise (· ≤ ·)
      ((mergeTagged sources).map (fun p => p.1)) := by
    have h1 := hsorted2.map Prod.fst
      (fun a b hab => by
        rcases hab with h | ⟨h, _⟩
        · exact le_of_lt h
        · exact le_of_eq h)
    rwa [List.map_map] at h1
  have hk := mergeGo_keys (pqMeasure (initHeap sources)) (initHeap sources)
    (le_refl _) hinv.2
  have hmapeq : (mergeTagged sources).map (fun p => p.1)
      = ((mergeTagged sources).map (fun t => t.2.2)).map mergeKey := by
    rw [List.map_map]
    exact List.map_congr_left (fun p hp => hk p hp)
  show List.Pairwise (· ≤ ·)
    (((mergeTagged sources).map (fun t => t.2.2)).map mergeKey)
  rw [← hmapeq]
  exact hfst

/-- Claim C3, witness: two key-sorted sources merge into a permutation of
their records, with non-decreasing keys and lexicographically
non-decreasing priorities. -/
theorem claim_C3_witness :
    (∀ src ∈ [[witEntryX1, witEntryX2], [witEntryX1]],
      List.Pairwise (· ≤ ·) (src.map mergeKey)) ∧
    (mergeSources [[witEntryX1, witEntryX2], [witEntryX1]]
        ~ [[witEntryX1, witEntryX2], [witEntryX1]].flatten ∧
      List.Pairwise (· ≤ ·)
        ((mergeSources [[witEntryX1, witEntryX2], [witEntryX1]]).map
          mergeKey) ∧
      List.Pairwise lexLe
        ((mergeTagged [[witEntryX1, witEntryX2], [witEntryX1]]).map
          (fun p => (p.1, p.2.1)))) :=
  ⟨by decide, claim_C3_merge_order [[witEntryX1, witEntryX2], [witEntryX1]]
    (by decide)⟩

/-- Claim C8, counterexample.  The claim says `panic` maps to `EMERGENCY`,
but `LogLevel.from_string` in the cited `core/models.py` has no "panic"
entry, so it yields `UNKNOWN`. -/
theorem claim_C8_counterexample :
    LogLevel.from_string "panic" = .UNKNOWN ∧
    LogLevel.from_string "panic" ≠ .EMERGENCY := by
  constructor
  · decide
  · decide

/-- Claim C8, amended.  Level parsing from string (core/models.py) is
case-insensitive and trims whitespace (it depends only on
`s.toLower.trim`), maps the canonical level names, the common aliases
warn→WARNING, err→ERROR, fatal→CRITICAL and emerg→EMERGENCY (but *not*
panic, which is unrecognized in this copy — the duplicate in
domain/entities.py does map panic→EMERGENCY), the single-letter
shortcuts, and the numeric severities 0–7 per the RFC 5424 mapping;
every input whose normal form is not in the alias table yields
UNKNOWN. -/
theorem claim_C8_amended :
    (∀ s t : String, pyNormalizeLevel s = pyNormalizeLevel t →
      LogLevel.from_string s = LogLevel.from_string t) ∧
    (∀ s : String, (levelTableModels.lookup (pyNormalizeLevel s)) = none →
      LogLevel.from_string s = .UNKNOWN) ∧
    (LogLevel.from_string "trace" = .TRACE ∧
     LogLevel.from_string "debug" = .DEBUG ∧
     LogLevel.from_string "info" = .INFO ∧
     LogLevel.from_string "notice" = .NOTICE ∧
     LogLevel.from_string "warning" = .WARNING ∧
     LogLevel.from_string "error" = .ERROR ∧
     LogLevel.from_string "critical" = .CRITICAL ∧
     LogLevel.from_string "alert" = .ALERT ∧
     LogLevel.from_string "emergency" = .EMERGENCY) ∧
    (LogLevel.from_string "warn" = .WARNING ∧
     LogLevel.from_string "err" = .ERROR ∧
     LogLevel.from_string "fatal" = .CRITICAL ∧
     LogLevel.from_string "emerg" = .EMERGENCY ∧
     LogLevel.from_string "panic" = .UNKNOWN) ∧
    (LogLevel.from_string "t" = .TRACE ∧
     LogLevel.from_string "d" = .DEBUG ∧
     LogLevel.from_string "i" = .INFO ∧
     LogLevel.from_string "n" = .NOTICE ∧
     LogLevel.from_string "w" = .WARNING ∧
     LogLevel.from_string "e" = .ERROR ∧
     LogLevel.from_string "c" = .CRITICAL ∧
     LogLevel.from_string "f" = .CRITICAL ∧
     LogLevel.from_string "a" = .ALERT) ∧
    (LogLevel.from_string "0" = .EMERGENCY ∧
     LogLevel.from_string "1" = .ALERT ∧
     LogLevel.from_string "2" = .CRITICAL ∧
     LogLevel.from_string "3" = .ERROR ∧
     LogLevel.from_string "4" = .WARNING ∧
     LogLevel.from_string "5" = .NOTICE ∧
     LogLevel.from_string "6" = .INFO ∧
     LogLevel.from_string "7" = .DEBUG) := by
  refine ⟨?_, ?_, ?_, ?_, ?_, ?_⟩
  · intro s t h
    unfold LogLevel.from_string
    rw [h]
  · intro s h
    unfold LogLevel.from_string
    rw [h]
    rfl
  · exact ⟨by decide, by decide, by decide, by decide, by decide, by decide,
      by decide, by decide, by decide⟩
  · exact ⟨by decide, by decide, by decide, by decide, by decide⟩
  · exact ⟨by decide, by decide, by decide, by decide, by decide, by decide,
      by decide, by decide, by decide⟩
  · exact ⟨by decide, by decide, by decide, by decide, by decide, by decide,
      by decide, by decide⟩

/-- Claim C8, witness for the amended theorem: the case-insensitivity and
default clauses applied at concrete inputs. -/
theorem claim_C8_witness :
    LogLevel.from_string " WaRn " = LogLevel.from_string "warn" ∧
    LogLevel.from_string "no-such-level" = .UNKNOWN := by
  constructor
  · exact claim_C8_amended.1 " WaRn " "warn" (by decide)
  · exact claim_C8_amended.2.1 "no-such-level" (by decide)

end ULP
